import Mathlib

/-!
# Sudoku solver (`src/Main.cpp`): embedding and verification

The program keeps a board as a `vector<vector<int>>` of `board_size * board_size`
candidate lists, indexed row-major.  The embedding below follows the source
function by function.

* A `std::vector<int>` is a `List Int`; the board is a `List (List Int)` together
  with the two constant members `board_size` and `square_size`.
* `vector::at` throws `std::out_of_range` on a bad index, and `v[0]` on an empty
  vector is undefined behaviour.  Both are modelled as faults in `Except Fault`.
* Loops whose trip count is not bounded by their header run on a fuel argument;
  running out of fuel is the third fault.  `Solve fuel` executes at most `fuel`
  bodies of the `do ... while` loop.
* Index arithmetic is done in `Nat`: every index the program computes on the
  boards considered here is far below `2^31`, so no machine arithmetic wraps.
* A text (file contents, `std::string`) is a `List Char`: each character stands for
  the byte with its code, 0..255.  Where a `char` is used as a number, it is the
  signed 8-bit `char` of the x86 compilers (`charToInt`).
-/

namespace Sudoku

/-! ## Data model -/

/-- Ways in which an operation can fail to deliver a result. -/
inductive Fault
  /-- The call `vector::at` with an index `≥ size()`, which throws `std::out_of_range`. -/
  | out_of_range
  /-- The read of element `[0]` of an empty vector through `operator[]`. -/
  | empty_subscript
  /-- The loop budget ran out before the loop finished. -/
  | out_of_fuel
  deriving DecidableEq, Repr

/-- The class `SudokuBoard : public vector<vector<int>>` with its two constant members. -/
structure SudokuBoard where
  cells : List (List Int)
  board_size : Nat
  square_size : Nat
  deriving DecidableEq, Repr

/-- The member `vector<int> empty_square = { 1, 2, 3, 4, 5, 6, 7, 8, 9 }`. -/
def empty_square : List Int := [1, 2, 3, 4, 5, 6, 7, 8, 9]

/-- The constructor `SudokuBoard(unsigned int s)`: `vector(s * s)` holds `s * s`
value-initialised (empty) inner vectors, the product being taken in 32-bit
`unsigned int`; `square_size` is `(unsigned int)sqrt(s)`, the integer square root. -/
def SudokuBoard.new (s : Nat) : SudokuBoard :=
  { cells := List.replicate ((s * s) % 2 ^ 32) [], board_size := s,
    square_size := Nat.sqrt s }

namespace SudokuBoard

/-- The `size()` of the outer vector. -/
def size (b : SudokuBoard) : Nat := b.cells.length

/-- The call `at(i)` as a read. -/
def at_ (b : SudokuBoard) (i : Nat) : Except Fault (List Int) :=
  match b.cells[i]? with
  | some c => .ok c
  | none => .error .out_of_range

/-- The assignment `at(i) = c`. -/
def assign (b : SudokuBoard) (i : Nat) (c : List Int) : Except Fault SudokuBoard :=
  if i < b.cells.length then .ok { b with cells := b.cells.set i c }
  else .error .out_of_range

end SudokuBoard

/-- The read `v[0]` on an inner vector. -/
def front (c : List Int) : Except Fault Int :=
  match c with
  | [] => .error .empty_subscript
  | d :: _ => .ok d

/-- The erase-remove idiom `v.erase(std::remove(v.begin(), v.end(), value), v.end())`. -/
def eraseValue (c : List Int) (value : Int) : List Int :=
  c.filter (fun d => d != value)

namespace SudokuBoard

/-- The statement
`at(i).erase(std::remove(at(i).begin(), at(i).end(), value), at(i).end())`. -/
def eraseAt (b : SudokuBoard) (i : Nat) (value : Int) : Except Fault SudokuBoard := do
  let c ← b.at_ i
  b.assign i (eraseValue c value)

/-- The method `isCellEmpty(h, w)`: the cell has more than one possible answer. -/
def isCellEmpty (b : SudokuBoard) (h w : Nat) : Except Fault Bool := do
  let c ← b.at_ (h * b.board_size + w)
  pure (decide (c.length > 1))

/-- The loop body shared by `crossVertical` and `crossHorizontal`:
`if (at(i).size() > 1) { at(i).erase(...) }`. -/
def crossOut (b : SudokuBoard) (i : Nat) (value : Int) : Except Fault SudokuBoard := do
  let c ← b.at_ i
  if c.length > 1 then b.eraseAt i value else pure b

/-- The loop of `crossVertical`: `for (i = ...; i < size(); i += board_size)`. -/
def crossVerticalLoop (value : Int) : Nat → Nat → SudokuBoard → Except Fault SudokuBoard
  | 0, i, b => if i < b.size then .error .out_of_fuel else pure b
  | fuel + 1, i, b =>
    if i < b.size then do
      let b1 ← b.crossOut i value
      crossVerticalLoop value fuel (i + b.board_size) b1
    else pure b

/-- The method `crossVertical(offsetW, value)`.  The loop makes at most `size()` trips when
`board_size > 0`. -/
def crossVertical (b : SudokuBoard) (offsetW : Nat) (value : Int) : Except Fault SudokuBoard :=
  crossVerticalLoop value b.size offsetW b

/-- The method `crossHorizontal(offsetH, value)`:
`for (i = offsetH * board_size; i < board_size * (offsetH + 1); i++)`. -/
def crossHorizontal (b : SudokuBoard) (offsetH : Nat) (value : Int) : Except Fault SudokuBoard :=
  (List.range' (offsetH * b.board_size) b.board_size).foldlM
    (fun b1 i => b1.crossOut i value) b

/-- The body of the inner loop of `crossBox`. -/
def crossBoxCell (b : SudokuBoard) (value : Int) (y x : Nat) : Except Fault SudokuBoard := do
  if (← b.isCellEmpty y x) then
    let i := y * b.board_size + x
    b.eraseAt i value
  else pure b

/-- The method `crossBox(offsetH, offsetW, value)`; the box side `3` is a literal in the
source. -/
def crossBox (b : SudokuBoard) (offsetH offsetW : Nat) (value : Int) : Except Fault SudokuBoard :=
  let height := (offsetH / 3) * 3
  let width := (offsetW / 3) * 3
  (List.range' height 3).foldlM
    (fun b1 y => (List.range' width 3).foldlM (fun b2 x => b2.crossBoxCell value y x) b1) b

/-- Inner loop of `isSolved` over the columns still to be visited in row `y`;
`false` is the early `return false`. -/
def isSolvedRow (b : SudokuBoard) (y : Nat) : List Nat → Except Fault Bool
  | [] => pure true
  | x :: xs => do
    if (← b.isCellEmpty y x) then pure false else isSolvedRow b y xs

/-- Outer loop of `isSolved` over the rows still to be visited. -/
def isSolvedRows (b : SudokuBoard) : List Nat → Except Fault Bool
  | [] => pure true
  | y :: ys => do
    if (← b.isSolvedRow y (List.range b.board_size)) then isSolvedRows b ys else pure false

/-- The method `isSolved()`. -/
def isSolved (b : SudokuBoard) : Except Fault Bool :=
  b.isSolvedRows (List.range b.board_size)

/-- The body of the inner loop of `Solve` at cell `(y, x)`. -/
def sweepCell (b : SudokuBoard) (y x : Nat) : Except Fault SudokuBoard := do
  if !(← b.isCellEmpty y x) then
    let v1 ← (← b.at_ (y * b.board_size + x)) |> front
    let b1 ← b.crossVertical x v1
    let v2 ← (← b1.at_ (y * b1.board_size + x)) |> front
    let b2 ← b1.crossHorizontal y v2
    let v3 ← (← b2.at_ (y * b2.board_size + x)) |> front
    b2.crossBox y x v3
  else pure b

/-- One row of a sweep: the inner `for` loop of `Solve`. -/
def sweepRow (b : SudokuBoard) (y : Nat) : Except Fault SudokuBoard :=
  (List.range b.board_size).foldlM (fun b1 x => b1.sweepCell y x) b

/-- One full sweep: the body of the `do ... while` loop of `Solve`. -/
def sweep (b : SudokuBoard) : Except Fault SudokuBoard :=
  (List.range b.board_size).foldlM (fun b1 y => b1.sweepRow y) b

/-- The method `Solve()`: `do { sweep } while (!isSolved())`, executing at most `fuel`
sweeps. -/
def Solve : Nat → SudokuBoard → Except Fault SudokuBoard
  | 0, _ => .error .out_of_fuel
  | fuel + 1, b => do
    let b1 ← b.sweep
    if !(← b1.isSolved) then Solve fuel b1 else pure b1

/-- The outcome of `n` consecutive full sweeps. -/
def sweeps : Nat → SudokuBoard → Except Fault SudokuBoard
  | 0, b => pure b
  | n + 1, b => do
    let b1 ← b.sweep
    sweeps n b1

end SudokuBoard

/-! ## Reading and writing boards -/

/-- The lines that successive calls `getline(source, line)` deliver until the call
fails: the text is cut at every newline, and the piece after the last newline is
delivered only if it is not empty. -/
def getlines : List Char → List (List Char)
  | [] => []
  | c :: rest =>
    if c = '\n' then [] :: getlines rest
    else
      match getlines rest with
      | [] => [[c]]
      | l :: ls => (c :: l) :: ls

/-- The three `line.erase(std::remove(...))` statements of `operator>>`. -/
def stripFormatting (line : List Char) : List Char :=
  ((line.filter (fun c => c != '|')).filter (fun c => c != '-')).filter (fun c => c != '+')

/-- The `int` a `char` promotes to. A character of a text stands for the byte with
its code, 0..255, and `char` is a signed 8-bit type: the bytes 0x00..0x7F are the
values 0..127 and the bytes 0x80..0xFF are the values -128..-1. -/
def charToInt (c : Char) : Int :=
  if c.toNat < 128 then (c.toNat : Int) else (c.toNat : Int) - 256

/-- The value `line[i] - '0'`: both operands are promoted to `int`, and `'0'` is 48. -/
def charValue (c : Char) : Int := charToInt c - 48

/-- The `for (int i = 0; i < line.size(); i++)` loop of `operator>>`, on the
characters from position `i` on. -/
def readChars (currentRow : Int) : List Char → Nat → SudokuBoard → Except Fault SudokuBoard
  | [], _, target => pure target
  | c :: rest, i, target => do
    let idx := (currentRow * (target.board_size : Int) + (i : Int)).toNat
    let t1 ←
      if c != ' ' then target.assign idx [charValue c]
      else target.assign idx empty_square
    readChars currentRow rest (i + 1) t1

/-- The body of the `while (getline(source, line))` loop of `operator>>`. -/
def readLine (state : Int × SudokuBoard) (rawLine : List Char) :
    Except Fault (Int × SudokuBoard) := do
  let line := stripFormatting rawLine
  let currentRow := if line.length > 0 then state.1 + 1 else state.1
  let t1 ← readChars currentRow line 0 state.2
  pure (currentRow, t1)

/-- The input operator `operator>>`: read a board from a text. -/
def read (source : List Char) (target : SudokuBoard) : Except Fault SudokuBoard := do
  let r ← (getlines source).foldlM readLine ((-1 : Int), target)
  pure r.2

/-- The characters `source << n` writes for an `int`: its decimal representation. -/
def printInt (n : Int) : List Char := (toString n).toList

/-- The body of the inner loop of `operator<<`. -/
def writeCell (target : SudokuBoard) (y : Nat) (out : List Char) (x : Nat) :
    Except Fault (List Char) := do
  let o1 ←
    if !(← target.isCellEmpty y x) then do
      let d ← (← target.at_ (y * target.board_size + x)) |> front
      pure (out ++ printInt d)
    else pure (out ++ [' '])
  if (x + 1) % 3 = 0 ∧ (x + 1) < 9 then pure (o1 ++ ['|']) else pure o1

/-- The body of the outer loop of `operator<<`. -/
def writeRow (target : SudokuBoard) (out : List Char) (y : Nat) : Except Fault (List Char) := do
  let o1 ← (List.range target.board_size).foldlM (writeCell target y) out
  let o2 := o1 ++ ['\n']
  if (y + 1) % 3 = 0 ∧ (y + 1) < 9 then pure (o2 ++ "---+---+---".toList ++ ['\n']) else pure o2

/-- The output operator `operator<<`: the text written for a board. -/
def write (target : SudokuBoard) : Except Fault (List Char) :=
  (List.range target.board_size).foldlM (writeRow target) []

/-! ## Vocabulary of the statements -/

/-- What one elimination does to a cell: `value` is erased only when the cell has
more than one candidate. -/
def elim (value : Int) (c : List Int) : List Int :=
  if c.length > 1 then eraseValue c value else c

/-- Elimination of `value` in every cell whose index is selected by `P`. -/
def elimIn (P : Nat → Bool) (value : Int) (cells : List (List Int)) : List (List Int) :=
  cells.mapIdx (fun i c => if P i then elim value c else c)

/-- The board has side 9 and holds 81 cells. -/
def Is9x9 (b : SudokuBoard) : Prop := b.board_size = 9 ∧ b.cells.length = 81

instance (b : SudokuBoard) : Decidable (Is9x9 b) := by
  unfold Is9x9; infer_instance

/-- The board `b` with its cells replaced. -/
def SudokuBoard.withCells (b : SudokuBoard) (cs : List (List Int)) : SudokuBoard :=
  { b with cells := cs }

/-- The cells of column `x`. -/
def inColumn (x : Nat) (j : Nat) : Bool := j % 9 == x

/-- The cells of row `y`. -/
def inRow (y : Nat) (j : Nat) : Bool := j / 9 == y

/-- The cells of the 3x3 box that contains `(y, x)`. -/
def inBox (y x : Nat) (j : Nat) : Bool := (j / 9) / 3 == y / 3 && (j % 9) / 3 == x / 3

/-- The cells a resolved cell `(y, x)` eliminates from: its column, its row and its box. -/
def peers (y x : Nat) (j : Nat) : Bool := inColumn x j || inRow y j || inBox y x j

/-- What the body of the sweep does to the cells when it visits `(y, x)`. -/
def visit (y x : Nat) (cells : List (List Int)) : List (List Int) :=
  match cells[y * 9 + x]? with
  | some [d] => elimIn (peers y x) d cells
  | _ => cells

/-- The candidate list stored at index `j` (empty when `j` is not an index of the board). -/
def cellAt (cells : List (List Int)) (j : Nat) : List Int := (cells[j]?).getD []

/-- No cell of the board has more than one candidate. -/
def AllResolved (cells : List (List Int)) : Prop :=
  ∀ j, j < 81 → (cellAt cells j).length ≤ 1

instance (cells : List (List Int)) : Decidable (AllResolved cells) := by
  unfold AllResolved; infer_instance

/-- The number of candidates summed over all cells. -/
def totalCandidates (cells : List (List Int)) : Nat := (cells.map List.length).sum

/-- The nine values of row `r` of `S`. -/
def rowOf (S : Nat → Nat → Int) (r : Nat) : List Int := (List.range 9).map (fun c => S r c)

/-- The nine values of column `c` of `S`. -/
def colOf (S : Nat → Nat → Int) (c : Nat) : List Int := (List.range 9).map (fun r => S r c)

/-- The nine values of box `k` of `S` (boxes numbered row-major). -/
def boxOf (S : Nat → Nat → Int) (k : Nat) : List Int :=
  (List.range 9).map (fun i => S (3 * (k / 3) + i / 3) (3 * (k % 3) + i % 3))

/-- The grid `S` is a valid completed Sudoku: each row, column and 3x3 box holds 1..9
exactly once. -/
def ValidSolution (S : Nat → Nat → Int) : Prop :=
  ∀ k, k < 9 → (rowOf S k).Perm empty_square ∧ (colOf S k).Perm empty_square ∧
    (boxOf S k).Perm empty_square

instance (S : Nat → Nat → Int) : Decidable (ValidSolution S) := by
  unfold ValidSolution; infer_instance

/-- Every cell of the board still lists the digit that `S` puts there. -/
def Agrees (S : Nat → Nat → Int) (cells : List (List Int)) : Prop :=
  cells.length = 81 ∧ ∀ r, r < 9 → ∀ c, c < 9 → S r c ∈ cellAt cells (r * 9 + c)

/-- The indices of the cells of row `k`. -/
def rowIndices (k : Nat) : List Nat := (List.range 9).map (fun c => k * 9 + c)

/-- The indices of the cells of column `k`. -/
def colIndices (k : Nat) : List Nat := (List.range 9).map (fun r => r * 9 + k)

/-- The indices of the cells of box `k` (boxes numbered row-major). -/
def boxIndices (k : Nat) : List Nat :=
  (List.range 9).map (fun i => (3 * (k / 3) + i / 3) * 9 + (3 * (k % 3) + i % 3))

/-- The digits of the resolved cells among the cells at the indices `idxs`. -/
def resolvedDigits (cells : List (List Int)) (idxs : List Nat) : List Int :=
  idxs.filterMap (fun j => match cellAt cells j with
    | [d] => some d
    | _ => none)

/-- No digit occurs twice among the resolved cells of any row, column or 3x3 box. -/
def NoRepeatedDigit (cells : List (List Int)) : Prop :=
  ∀ k, k < 9 → (resolvedDigits cells (rowIndices k)).Nodup ∧
    (resolvedDigits cells (colIndices k)).Nodup ∧ (resolvedDigits cells (boxIndices k)).Nodup

instance (cells : List (List Int)) : Decidable (NoRepeatedDigit cells) := by
  unfold NoRepeatedDigit; infer_instance

/-! ## Vocabulary for texts -/

/-- The cell that `operator>>` stores for a content character. -/
def cellOfChar (c : Char) : List Int := if c != ' ' then [charValue c] else empty_square

/-- The character at position `k` of a line (a space beyond its end). -/
def charAt (chars : List Char) (k : Nat) : Char := (chars[k]?).getD ' '

/-- The line number `r` of a list of lines (empty beyond its end). -/
def rowAt (rows : List (List Char)) (r : Nat) : List Char := (rows[r]?).getD []

/-- The lines that are not empty after the formatting characters are deleted, in order. -/
def contentOf (lines : List (List Char)) : List (List Char) :=
  (lines.map stripFormatting).filter (fun l => decide (l.length > 0))

/-- The character that stands for the digit `d`. -/
def digitChar (d : Int) : Char := Char.ofNat (48 + d.toNat)

/-- What `operator<<` writes for a resolved cell with digit `d` in column `x`. -/
def cellText (d : Int) (x : Nat) : List Char :=
  printInt d ++ if (x + 1) % 3 = 0 ∧ (x + 1) < 9 then ['|'] else []

/-- The cells of a row as `operator<<` writes them, `D x` being the digit in column `x`. -/
def rowCellsText (D : Nat → Int) : List Char := (List.range 9).flatMap (fun x => cellText (D x) x)

/-- What `operator<<` writes for row `y`, the separator line included. -/
def rowText (D : Nat → Int) (y : Nat) : List Char :=
  rowCellsText D ++ ['\n'] ++
    if (y + 1) % 3 = 0 ∧ (y + 1) < 9 then "---+---+---".toList ++ ['\n'] else []

/-- What `operator<<` writes for the rows `ys` of a resolved board with digits `D`. -/
def rowsText (D : Nat → Nat → Int) (ys : List Nat) : List Char :=
  ys.flatMap (fun y => rowText (D y) y)

/-- The digit of a resolved cell. -/
def digitAt (cells : List (List Int)) (y x : Nat) : Int := (cellAt cells (y * 9 + x)).headD 0

/-! ## Sample boards and texts -/

deriving instance DecidableEq for Except

/-- The board of side 9 that holds the given digits, `0` standing for a blank cell,
as `operator>>` leaves it. -/
def boardOfGivens (givens : List Int) : SudokuBoard :=
  { cells := givens.map (fun d => if d = 0 then empty_square else [d]),
    board_size := 9, square_size := 3 }

/-- The completed grid whose cells, row-major, are the entries of `digits`. -/
def gridOf (digits : List Int) : Nat → Nat → Int := fun r c => digits.getD (r * 9 + c) 0

/-- A completed Sudoku. -/
def sampleDigits : List Int :=
  [1, 2, 3, 4, 5, 6, 7, 8, 9,
   4, 5, 6, 7, 8, 9, 1, 2, 3,
   7, 8, 9, 1, 2, 3, 4, 5, 6,
   2, 3, 4, 5, 6, 7, 8, 9, 1,
   5, 6, 7, 8, 9, 1, 2, 3, 4,
   8, 9, 1, 2, 3, 4, 5, 6, 7,
   3, 4, 5, 6, 7, 8, 9, 1, 2,
   6, 7, 8, 9, 1, 2, 3, 4, 5,
   9, 1, 2, 3, 4, 5, 6, 7, 8]

/-- A puzzle with 43 givens taken from `sampleDigits`. -/
def twoSweepGivens : List Int :=
  [0, 2, 3, 4, 0, 0, 0, 0, 0,
   4, 0, 6, 7, 0, 9, 0, 0, 3,
   0, 8, 0, 1, 2, 3, 4, 5, 0,
   0, 3, 4, 5, 0, 7, 0, 9, 1,
   5, 6, 7, 8, 0, 0, 2, 0, 0,
   0, 0, 1, 0, 0, 4, 0, 6, 7,
   0, 4, 5, 6, 0, 0, 0, 0, 2,
   6, 7, 0, 9, 0, 0, 3, 4, 5,
   9, 1, 0, 3, 0, 0, 0, 7, 0]

/-- The digits of `sampleDigits` with the cells of `diagonalBlanks` left blank. -/
def oneBlankGivens : List Int :=
  [0, 2, 3, 4, 5, 6, 7, 8, 9,
   4, 5, 6, 0, 8, 9, 1, 2, 3,
   7, 8, 9, 1, 2, 3, 0, 5, 6,
   2, 0, 4, 5, 6, 7, 8, 9, 1,
   5, 6, 7, 8, 0, 1, 2, 3, 4,
   8, 9, 1, 2, 3, 4, 5, 0, 7,
   3, 4, 0, 6, 7, 8, 9, 1, 2,
   6, 7, 8, 9, 1, 0, 3, 4, 5,
   9, 1, 2, 3, 4, 5, 6, 7, 0]

/-- A choice of blank cells with one blank in each row, column and box. -/
def diagonalBlanks (r c : Nat) : Bool := c == (3 * (r % 3) + r / 3) % 9

/-- Two givens `5` side by side in row 0, everything else blank. -/
def twinGivens : List Int := [5, 5] ++ List.replicate 79 0

/-- The board with all 81 cells blank. -/
def blankBoard : SudokuBoard :=
  { cells := List.replicate 81 empty_square, board_size := 9, square_size := 3 }

/-- Givens without a repeated digit in any row, column or box that have no
completion: cells (0,8) and (3,7) are blank, and the 9 at (3,8) leaves no digit
for (3,7), whose column already holds 1..8. -/
def overGivens : List Int :=
  [1, 2, 3, 4, 5, 6, 7, 8, 0,
   4, 5, 6, 7, 8, 9, 1, 2, 3,
   7, 8, 9, 1, 2, 3, 4, 5, 6,
   2, 3, 4, 5, 6, 7, 8, 0, 9,
   5, 6, 7, 8, 9, 1, 2, 3, 4,
   8, 9, 1, 2, 3, 4, 5, 6, 7,
   3, 4, 5, 6, 7, 8, 9, 1, 2,
   6, 7, 8, 9, 1, 2, 3, 4, 5,
   9, 1, 2, 3, 4, 5, 6, 7, 8]

/-- What `Solve` makes of `overGivens`: 9 twice in column 8 and 1 twice in column 7. -/
def overResult : List Int :=
  [1, 2, 3, 4, 5, 6, 7, 8, 9,
   4, 5, 6, 7, 8, 9, 1, 2, 3,
   7, 8, 9, 1, 2, 3, 4, 5, 6,
   2, 3, 4, 5, 6, 7, 8, 1, 9,
   5, 6, 7, 8, 9, 1, 2, 3, 4,
   8, 9, 1, 2, 3, 4, 5, 6, 7,
   3, 4, 5, 6, 7, 8, 9, 1, 2,
   6, 7, 8, 9, 1, 2, 3, 4, 5,
   9, 1, 2, 3, 4, 5, 6, 7, 8]

/-- The board of `overGivens` with the cells at (0,8) and (3,7) replaced: the states
that the first sweep over `overGivens` runs through. -/
def overState (c08 c37 : List Int) : SudokuBoard :=
  { cells := ((boardOfGivens overGivens).cells.set 8 c08).set 34 c37,
    board_size := 9, square_size := 3 }

/-- The text `operator<<` writes for the completed grid `sampleDigits`. -/
def sampleText : List Char :=
  ("123|456|789\n456|789|123\n789|123|456\n---+---+---\n" ++
   "234|567|891\n567|891|234\n891|234|567\n---+---+---\n" ++
   "345|678|912\n678|912|345\n912|345|678\n").toList

/-- The puzzle `twoSweepGivens` in a frame, with an empty line after each band and no
newline at the end. -/
def framedText : List Char :=
  ("+---+---+---+\n| 23|4  |   |\n|4 6|7 9|  3|\n| 8 |123|45 |\n+---+---+---+\n\n" ++
   "| 34|5 7| 91|\n|567|8  |2  |\n|  1|  4| 67|\n+---+---+---+\n\n" ++
   "| 45|6  |  2|\n|67 |9  |345|\n|91 |3  | 7 |\n+---+---+---+").toList

/-- A grid without empty cells in which cell (0,1) repeats a digit: `[3]`, `[3, 3]`
and 79 blank cells. -/
def repeatBoard : SudokuBoard :=
  { cells := [3] :: [3, 3] :: List.replicate 79 empty_square, board_size := 9, square_size := 3 }

/-- Whether all content lines, the first of them being row `k`, keep every character at
a linear index `row * 9 + i` below 81. -/
def fits (k : Nat) : List (List Char) → Bool
  | [] => true
  | l :: rest => decide (k * 9 + l.length ≤ 81) && fits (k + 1) rest

/-- The character that is stored last at the linear index `j` when the content lines,
the first of them being row `k`, are stored in order: character `i` of row `r` goes to
index `r * 9 + i`. -/
def lastWritten (k : Nat) : List (List Char) → Nat → Option Char
  | [], _ => none
  | l :: rest, j =>
    match lastWritten (k + 1) rest j with
    | some c => some c
    | none => if k * 9 ≤ j ∧ j < k * 9 + l.length then some (charAt l (j - k * 9)) else none

/-- A text with one line of eleven content characters, among them `0` and `a`. -/
def longLineText : List Char := "1234567890a\n".toList

/-- A text with ten content lines. -/
def tenLinesText : List Char := "1\n2\n3\n4\n5\n6\n7\n8\n9\n1\n".toList

/-- A one-line text whose only character is the byte 0xE9. -/
def highByteText : List Char := [Char.ofNat 233, '\n']

/-- The text of a puzzle of side 4 with the single given 1 in cell (0,0). -/
def fourText : List Char := "1   \n    \n    \n    \n".toList

/-- The board of side 4 that `operator>>` builds from `fourText`. -/
def fourBoard : SudokuBoard :=
  { cells := [1] :: List.replicate 15 empty_square, board_size := 4, square_size := 2 }

/-- The list 1..9 without 1. -/
def withoutOne : List Int := [2, 3, 4, 5, 6, 7, 8, 9]

/-- What the output format shows for a cell: the value of a cell with one candidate,
a single space for a cell with several. -/
def cellGlyph (cell : List Int) : List Char :=
  match cell with
  | [d] => printInt d
  | _ => [' ']

/-- Row `y` as the output format describes it: its 9 cells in column order, with a
`|` after columns 3 and 6 only. -/
def formatRow (cells : List (List Int)) (y : Nat) : List Char :=
  (List.range 9).flatMap
    (fun x => cellGlyph (cellAt cells (y * 9 + x)) ++ if x + 1 = 3 ∨ x + 1 = 6 then ['|'] else [])

/-- The lines of the output format: the 9 rows, with the line `---+---+---` after
rows 3 and 6 only. -/
def formatLines (cells : List (List Int)) : List (List Char) :=
  [formatRow cells 0, formatRow cells 1, formatRow cells 2, "---+---+---".toList,
   formatRow cells 3, formatRow cells 4, formatRow cells 5, "---+---+---".toList,
   formatRow cells 6, formatRow cells 7, formatRow cells 8]

open SudokuBoard

/-! ## Elimination described cell by cell -/

theorem eraseValue_eraseValue (c : List Int) (v : Int) :
    eraseValue (eraseValue c v) v = eraseValue c v := by
  simp [eraseValue, List.filter_filter]

theorem elim_idem (v : Int) (c : List Int) : elim v (elim v c) = elim v c := by
  unfold elim
  by_cases h : c.length > 1
  · simp only [h, if_true]
    split
    · exact eraseValue_eraseValue c v
    · rfl
  · simp [h]

@[simp] theorem elimIn_length (P : Nat → Bool) (v : Int) (cells : List (List Int)) :
    (elimIn P v cells).length = cells.length := by
  simp [elimIn]

theorem elimIn_getElem? (P : Nat → Bool) (v : Int) (cells : List (List Int)) (i : Nat) :
    (elimIn P v cells)[i]? = (cells[i]?).map (fun c => if P i then elim v c else c) := by
  simp [elimIn]

theorem elimIn_congr {P Q : Nat → Bool} (v : Int) (cells : List (List Int))
    (h : ∀ i, i < cells.length → P i = Q i) : elimIn P v cells = elimIn Q v cells := by
  apply List.ext_getElem?
  intro i
  rw [elimIn_getElem?, elimIn_getElem?]
  by_cases hi : i < cells.length
  · rw [h i hi]
  · rw [List.getElem?_eq_none (by omega)]; rfl

theorem elimIn_elimIn (P Q : Nat → Bool) (v : Int) (cells : List (List Int)) :
    elimIn Q v (elimIn P v cells) = elimIn (fun i => P i || Q i) v cells := by
  apply List.ext_getElem?
  intro i
  simp only [elimIn_getElem?]
  cases cells[i]? with
  | none => rfl
  | some c =>
    cases hP : P i <;> cases hQ : Q i <;> simp [elim_idem]

theorem elimIn_none (v : Int) (cells : List (List Int)) :
    elimIn (fun _ => false) v cells = cells := by
  apply List.ext_getElem?
  intro i
  rw [elimIn_getElem?]
  cases cells[i]? <;> simp

theorem at_eq_ok {b : SudokuBoard} {i : Nat} (h : i < b.cells.length) :
    b.at_ i = .ok (b.cells[i]) := by
  simp [at_, List.getElem?_eq_getElem h]


theorem crossOut_eq (b : SudokuBoard) (i : Nat) (v : Int) (h : i < b.cells.length) :
    b.crossOut i v = .ok { b with cells := elimIn (fun j => j == i) v b.cells } := by
  have hcells : elimIn (fun j => j == i) v b.cells
      = if (b.cells[i]).length > 1 then b.cells.set i (eraseValue (b.cells[i]) v) else b.cells := by
    apply List.ext_getElem?
    intro j
    rw [elimIn_getElem?]
    by_cases hj : j = i
    · subst hj
      by_cases hl : (b.cells[j]).length > 1
      · simp [hl, elim, List.getElem?_eq_getElem h, List.getElem?_set_self h]
      · simp [hl, elim, List.getElem?_eq_getElem h]
    · have hji : (j == i) = false := by simpa using hj
      by_cases hl : (b.cells[i]).length > 1
      · simp only [hl, if_true, hji]
        rw [List.getElem?_set_ne (Ne.symm hj)]
        cases b.cells[j]? <;> simp
      · simp only [hl, if_false, hji]
        cases b.cells[j]? <;> simp
  rw [hcells]
  unfold crossOut eraseAt assign
  rw [at_eq_ok h]
  by_cases hl : (b.cells[i]).length > 1
  · simp [hl, bind, Except.bind, h]
  · simp [hl, bind, Except.bind, pure, Except.pure]


@[simp] theorem withCells_cells (b : SudokuBoard) (cs : List (List Int)) :
    (b.withCells cs).cells = cs := rfl

@[simp] theorem withCells_board_size (b : SudokuBoard) (cs : List (List Int)) :
    (b.withCells cs).board_size = b.board_size := rfl

@[simp] theorem withCells_withCells (b : SudokuBoard) (cs cs' : List (List Int)) :
    (b.withCells cs).withCells cs' = b.withCells cs' := rfl

@[simp] theorem withCells_self (b : SudokuBoard) : b.withCells b.cells = b := rfl

theorem Is9x9.withCells {b : SudokuBoard} (hb : Is9x9 b) {cs : List (List Int)}
    (h : cs.length = 81) : Is9x9 (b.withCells cs) := ⟨hb.1, h⟩

theorem Is9x9.elimIn {b : SudokuBoard} (hb : Is9x9 b) (P : Nat → Bool) (v : Int) :
    Is9x9 (b.withCells (elimIn P v b.cells)) :=
  hb.withCells (by rw [elimIn_length]; exact hb.2)

/-- A loop whose every trip is an elimination of `v` is one elimination of `v` on
the union of the index sets. -/
theorem elim_fold {α : Type} (v : Int) (f : SudokuBoard → α → Except Fault SudokuBoard)
    (P : α → Nat → Bool) (l : List α)
    (hf : ∀ b : SudokuBoard, Is9x9 b → ∀ a ∈ l,
      f b a = .ok (b.withCells (elimIn (P a) v b.cells)))
    (b : SudokuBoard) (hb : Is9x9 b) :
    l.foldlM f b = .ok (b.withCells (elimIn (fun j => l.any (fun a => P a j)) v b.cells)) := by
  induction l generalizing b with
  | nil =>
    simp [elimIn_none, pure, Except.pure]
  | cons a rest ih =>
    rw [List.foldlM_cons, hf b hb a (by simp)]
    simp only [bind, Except.bind]
    rw [ih (fun b1 hb1 a1 ha1 => hf b1 hb1 a1 (by simp [ha1])) _ (hb.elimIn _ _)]
    simp only [withCells_cells, withCells_withCells, elimIn_elimIn, List.any_cons]

theorem crossOut_eq9 (b : SudokuBoard) (i : Nat) (v : Int) (hb : Is9x9 b) (h : i < 81) :
    b.crossOut i v = .ok (b.withCells (elimIn (fun j => j == i) v b.cells)) :=
  crossOut_eq b i v (by rw [hb.2]; exact h)

theorem crossBoxCell_eq_crossOut (b : SudokuBoard) (v : Int) (y x : Nat) :
    b.crossBoxCell v y x = b.crossOut (y * b.board_size + x) v := by
  unfold crossBoxCell crossOut isCellEmpty
  cases h : b.at_ (y * b.board_size + x) with
  | error e => simp [bind, Except.bind]
  | ok c => simp [bind, Except.bind, pure, Except.pure]

theorem crossHorizontal_eq (b : SudokuBoard) (hb : Is9x9 b) (y : Nat) (hy : y < 9) (v : Int) :
    b.crossHorizontal y v = .ok (b.withCells (elimIn (inRow y) v b.cells)) := by
  unfold crossHorizontal
  rw [elim_fold v _ (fun i j => j == i) _ _ b hb]
  · rw [elimIn_congr v b.cells (Q := inRow y)]
    intro j _
    rw [Bool.eq_iff_iff]
    simp only [List.any_eq_true, List.mem_range'_1, beq_iff_eq, inRow, hb.1]
    constructor
    · rintro ⟨i, hi, rfl⟩; omega
    · intro h; exact ⟨j, by omega, rfl⟩
  · intro b1 hb1 i hi
    rw [List.mem_range'_1, hb.1] at hi
    exact crossOut_eq9 b1 i v hb1 (by omega)

theorem crossVerticalLoop_eq (v : Int) (fuel : Nat) (i : Nat) (b : SudokuBoard) (hb : Is9x9 b)
    (hfuel : 81 ≤ i + fuel) :
    crossVerticalLoop v fuel i b
      = .ok (b.withCells (elimIn (fun j => decide (i ≤ j) && (j - i) % 9 == 0) v b.cells)) := by
  induction fuel generalizing i b with
  | zero =>
    have hi : ¬ i < b.size := by unfold size; rw [hb.2]; omega
    simp only [crossVerticalLoop, hi, if_false, pure, Except.pure]
    rw [elimIn_congr v b.cells (Q := fun _ => false), elimIn_none, withCells_self]
    intro j hj
    rw [hb.2] at hj
    have : ¬ i ≤ j := by omega
    simp [this]
  | succ fuel ih =>
    by_cases hi : i < b.size
    · have hi81 : i < 81 := by unfold size at hi; rw [hb.2] at hi; exact hi
      simp only [crossVerticalLoop, hi, if_true]
      rw [crossOut_eq9 b i v hb hi81]
      simp only [bind, Except.bind]
      rw [ih _ _ (hb.elimIn _ _) (by simp only [withCells_board_size, hb.1]; omega)]
      simp only [withCells_cells, withCells_withCells, elimIn_elimIn, withCells_board_size, hb.1]
      rw [elimIn_congr v b.cells]
      intro j _
      rw [Bool.eq_iff_iff]
      simp only [Bool.or_eq_true, Bool.and_eq_true, beq_iff_eq, decide_eq_true_eq]
      omega
    · have hi81 : ¬ i < 81 := by unfold size at hi; rw [hb.2] at hi; exact hi
      simp only [crossVerticalLoop, hi, if_false, pure, Except.pure]
      rw [elimIn_congr v b.cells (Q := fun _ => false), elimIn_none, withCells_self]
      intro j hj
      rw [hb.2] at hj
      have : ¬ i ≤ j := by omega
      simp [this]

theorem crossVertical_eq (b : SudokuBoard) (hb : Is9x9 b) (x : Nat) (hx : x < 9) (v : Int) :
    b.crossVertical x v = .ok (b.withCells (elimIn (inColumn x) v b.cells)) := by
  unfold crossVertical
  rw [crossVerticalLoop_eq v _ x b hb (by unfold size; rw [hb.2]; omega)]
  rw [elimIn_congr v b.cells (Q := inColumn x)]
  intro j _
  rw [Bool.eq_iff_iff]
  simp only [Bool.and_eq_true, beq_iff_eq, decide_eq_true_eq, inColumn]
  omega

theorem crossBox_eq (b : SudokuBoard) (hb : Is9x9 b) (y x : Nat) (hy : y < 9) (hx : x < 9)
    (v : Int) :
    b.crossBox y x v = .ok (b.withCells (elimIn (inBox y x) v b.cells)) := by
  unfold crossBox
  simp only []
  rw [elim_fold v _ (fun y1 j => j / 9 == y1 && (j % 9) / 3 == x / 3) _ _ b hb]
  · rw [elimIn_congr v b.cells (Q := inBox y x)]
    intro j _
    rw [Bool.eq_iff_iff]
    simp only [List.any_eq_true, List.mem_range'_1, beq_iff_eq, inBox, Bool.and_eq_true]
    constructor
    · rintro ⟨i, hi, h1, h2⟩; omega
    · intro h; exact ⟨j / 9, by omega, rfl, h.2⟩
  · intro b1 hb1 y1 hy1
    rw [List.mem_range'_1] at hy1
    rw [elim_fold v _ (fun x1 j => j == y1 * 9 + x1) _ _ b1 hb1]
    · rw [elimIn_congr v b1.cells]
      intro j _
      rw [Bool.eq_iff_iff]
      simp only [List.any_eq_true, List.mem_range'_1, beq_iff_eq, Bool.and_eq_true]
      constructor
      · rintro ⟨i, hi, rfl⟩; omega
      · intro h; exact ⟨j % 9, by omega, by omega⟩
    · intro b2 hb2 x1 hx1
      rw [List.mem_range'_1] at hx1
      rw [crossBoxCell_eq_crossOut, hb2.1]
      exact crossOut_eq9 b2 _ v hb2 (by omega)

theorem elim_short (v : Int) (c : List Int) (h : c.length ≤ 1) : elim v c = c := by
  unfold elim
  rw [if_neg (by omega)]

theorem elimIn_getElem?_short (P : Nat → Bool) (v : Int) (cells : List (List Int)) (j : Nat)
    (c : List Int) (hc : cells[j]? = some c) (h : c.length ≤ 1) :
    (elimIn P v cells)[j]? = some c := by
  rw [elimIn_getElem?, hc]
  cases P j <;> simp [elim_short v c h]

@[simp] theorem visit_length (y x : Nat) (cells : List (List Int)) :
    (visit y x cells).length = cells.length := by
  unfold visit
  split <;> simp

theorem sweepCell_eq (b : SudokuBoard) (hb : Is9x9 b) (y x : Nat) (hy : y < 9) (hx : x < 9)
    (hne : b.cells[y * 9 + x]? ≠ some []) :
    b.sweepCell y x = .ok (b.withCells (visit y x b.cells)) := by
  have hidx : y * 9 + x < b.cells.length := by rw [hb.2]; omega
  have hget : b.cells[y * 9 + x]? = some (b.cells[y * 9 + x]) := List.getElem?_eq_getElem hidx
  unfold sweepCell isCellEmpty
  rw [hb.1, at_eq_ok hidx]
  generalize hc : b.cells[y * 9 + x] = c at hget
  match c, hget with
  | [], hget => exact absurd hget hne
  | [d], hget =>
    have hv : visit y x b.cells = elimIn (peers y x) d b.cells := by
      unfold visit; rw [hget]
    have h1 := hb.elimIn (inColumn x) d
    have h2 : Is9x9 ((b.withCells (elimIn (inColumn x) d b.cells)).withCells
        (elimIn (inRow y) d (elimIn (inColumn x) d b.cells))) := h1.elimIn (inRow y) d
    have g1 : (b.withCells (elimIn (inColumn x) d b.cells)).at_ (y * 9 + x) = .ok [d] := by
      unfold at_
      rw [withCells_cells, elimIn_getElem?_short _ _ _ _ _ hget (by simp)]
    have g2 : ((b.withCells (elimIn (inColumn x) d b.cells)).withCells
        (elimIn (inRow y) d (elimIn (inColumn x) d b.cells))).at_ (y * 9 + x) = .ok [d] := by
      unfold at_
      rw [withCells_cells, elimIn_getElem?_short _ _ _ _ _
        (elimIn_getElem?_short _ _ _ _ _ hget (by simp)) (by simp)]
    simp only [bind, Except.bind, pure, Except.pure, List.length_singleton, gt_iff_lt,
      Nat.lt_irrefl, decide_False, Bool.not_false, if_true, front]
    rw [crossVertical_eq b hb x hx d]
    simp only [withCells_board_size, hb.1, g1, front]
    rw [crossHorizontal_eq _ h1 y hy d]
    simp only [withCells_board_size, withCells_cells, hb.1, g2, front]
    rw [crossBox_eq _ h2 y x hy hx d, hv]
    simp only [withCells_cells, withCells_withCells, elimIn_elimIn]
    rfl
  | d :: e :: rest, hget =>
    have hv : visit y x b.cells = b.cells := by
      unfold visit; rw [hget]
    simp [bind, Except.bind, pure, Except.pure, hv]

theorem sweepCell_empty (b : SudokuBoard) (hb : Is9x9 b) (y x : Nat)
    (he : b.cells[y * 9 + x]? = some []) :
    b.sweepCell y x = .error .empty_subscript := by
  unfold sweepCell isCellEmpty at_
  rw [hb.1, he]
  simp [bind, Except.bind, pure, Except.pure, front]

/-- Every successful visit is described by `visit`. -/
theorem sweepCell_ok (b : SudokuBoard) (hb : Is9x9 b) (y x : Nat) (hy : y < 9) (hx : x < 9)
    (b' : SudokuBoard) (h : b.sweepCell y x = .ok b') :
    b' = b.withCells (visit y x b.cells) := by
  by_cases he : b.cells[y * 9 + x]? = some []
  · rw [sweepCell_empty b hb y x he] at h; cases h
  · rw [sweepCell_eq b hb y x hy hx he] at h
    cases h; rfl

/-! ## Counted loops with an invariant -/

theorem foldlM_range_total {σ : Type} (f : σ → Nat → Except Fault σ) (n : Nat)
    (I : Nat → σ → Prop)
    (hstep : ∀ k, k < n → ∀ s, I k s → ∃ s', f s k = .ok s' ∧ I (k + 1) s')
    (s : σ) (h0 : I 0 s) :
    ∃ s', (List.range n).foldlM f s = .ok s' ∧ I n s' := by
  induction n with
  | zero => exact ⟨s, rfl, h0⟩
  | succ n ih =>
    obtain ⟨s1, hs1, hI1⟩ := ih (fun k hk => hstep k (by omega))
    obtain ⟨s2, hs2, hI2⟩ := hstep n (by omega) s1 hI1
    refine ⟨s2, ?_, hI2⟩
    rw [List.range_succ, List.foldlM_append, hs1]
    simp [bind, Except.bind, hs2, pure, Except.pure]

theorem foldlM_range_partial {σ : Type} (f : σ → Nat → Except Fault σ) (n : Nat)
    (I : Nat → σ → Prop)
    (hstep : ∀ k, k < n → ∀ s s', I k s → f s k = .ok s' → I (k + 1) s')
    (s : σ) (h0 : I 0 s) (s' : σ) (h : (List.range n).foldlM f s = .ok s') :
    I n s' := by
  induction n generalizing s' with
  | zero =>
    simp [pure, Except.pure] at h
    rw [← h]; exact h0
  | succ n ih =>
    rw [List.range_succ, List.foldlM_append] at h
    cases h1 : (List.range n).foldlM f s with
    | error e => rw [h1] at h; simp [bind, Except.bind] at h
    | ok s1 =>
      rw [h1] at h
      simp only [bind, Except.bind, List.foldlM_cons, List.foldlM_nil] at h
      cases h2 : f s1 n with
      | error e => rw [h2] at h; simp at h
      | ok s2 =>
        rw [h2] at h
        simp [pure, Except.pure] at h
        rw [← h]
        exact hstep n (by omega) s1 s2 (ih (fun k hk => hstep k (by omega)) s1 h1) h2

/-! ## A sweep as 81 visits -/

/-- A sweep succeeds and establishes `K 81` when `K k` holds before the `k`-th visit,
is carried along by every visit, and rules out empty cells. -/
theorem sweep_total (K : Nat → List (List Int) → Prop)
    (hlen : ∀ k cells, K k cells → cells.length = 81)
    (hne : ∀ k cells, k < 81 → K k cells → ∀ i : Nat, cells[i]? ≠ some ([] : List Int))
    (hstep : ∀ y x cells, y < 9 → x < 9 → K (y * 9 + x) cells → K (y * 9 + x + 1) (visit y x cells))
    (b : SudokuBoard) (hb : b.board_size = 9) (h0 : K 0 b.cells) :
    ∃ cs, b.sweep = .ok (b.withCells cs) ∧ K 81 cs := by
  have hrow : ∀ y, y < 9 → ∀ s : SudokuBoard, (∃ cs, s = b.withCells cs ∧ K (y * 9) cs) →
      ∃ s', s.sweepRow y = .ok s' ∧ ∃ cs, s' = b.withCells cs ∧ K ((y + 1) * 9) cs := by
    intro y hy s hs
    obtain ⟨cs, rfl, hK⟩ := hs
    unfold sweepRow
    rw [withCells_board_size, hb]
    have := foldlM_range_total (fun b1 x => b1.sweepCell y x) 9
      (fun x s => ∃ cs, s = b.withCells cs ∧ K (y * 9 + x) cs)
      (by
        intro x hx s hs
        obtain ⟨cs1, rfl, hK1⟩ := hs
        have h9 : Is9x9 (b.withCells cs1) := ⟨hb, hlen _ _ hK1⟩
        refine ⟨_, sweepCell_eq _ h9 y x hy hx (hne _ _ (by omega) hK1 _), _, rfl, ?_⟩
        exact hstep y x cs1 hy hx hK1)
      (b.withCells cs) ⟨cs, rfl, hK⟩
    obtain ⟨s', hs', cs', hcs', hK'⟩ := this
    exact ⟨s', hs', cs', hcs', by rw [Nat.add_mul, Nat.one_mul]; exact hK'⟩
  have := foldlM_range_total (fun b1 y => b1.sweepRow y) 9
    (fun y s => ∃ cs, s = b.withCells cs ∧ K (y * 9) cs) hrow b ⟨b.cells, rfl, by simpa using h0⟩
  obtain ⟨s', hs', cs', hcs', hK'⟩ := this
  refine ⟨cs', ?_, hK'⟩
  unfold sweep
  rw [hb, hs', hcs']

/-- Whatever a sweep returns satisfies `K 81` when `K k` holds before the `k`-th
visit and is carried along by every visit. -/
theorem sweep_partial (K : Nat → List (List Int) → Prop)
    (hlen : ∀ k cells, K k cells → cells.length = 81)
    (hstep : ∀ y x cells, y < 9 → x < 9 → K (y * 9 + x) cells → K (y * 9 + x + 1) (visit y x cells))
    (b : SudokuBoard) (hb : b.board_size = 9) (h0 : K 0 b.cells)
    (b' : SudokuBoard) (h : b.sweep = .ok b') :
    ∃ cs, b' = b.withCells cs ∧ K 81 cs := by
  have hrow : ∀ y, y < 9 → ∀ s s' : SudokuBoard, (∃ cs, s = b.withCells cs ∧ K (y * 9) cs) →
      s.sweepRow y = .ok s' → ∃ cs, s' = b.withCells cs ∧ K ((y + 1) * 9) cs := by
    intro y hy s s' hs hrun
    obtain ⟨cs, rfl, hK⟩ := hs
    unfold sweepRow at hrun
    rw [withCells_board_size, hb] at hrun
    have := foldlM_range_partial (fun b1 x => b1.sweepCell y x) 9
      (fun x s => ∃ cs, s = b.withCells cs ∧ K (y * 9 + x) cs)
      (by
        intro x hx s s2 hs h2
        obtain ⟨cs1, rfl, hK1⟩ := hs
        have h9 : Is9x9 (b.withCells cs1) := ⟨hb, hlen _ _ hK1⟩
        refine ⟨_, sweepCell_ok _ h9 y x hy hx s2 h2, ?_⟩
        exact hstep y x cs1 hy hx hK1)
      (b.withCells cs) ⟨cs, rfl, hK⟩ s' hrun
    obtain ⟨cs', hcs', hK'⟩ := this
    exact ⟨cs', hcs', by rw [Nat.add_mul, Nat.one_mul]; exact hK'⟩
  unfold sweep at h
  rw [hb] at h
  exact foldlM_range_partial (fun b1 y => b1.sweepRow y) 9
    (fun y s => ∃ cs, s = b.withCells cs ∧ K (y * 9) cs) hrow b
    ⟨b.cells, rfl, by simpa using h0⟩ b' h

/-! ## Cells by index -/

theorem cellAt_of_getElem? {cells : List (List Int)} {j : Nat} {c : List Int}
    (h : cells[j]? = some c) : cellAt cells j = c := by
  simp [cellAt, h]

theorem getElem?_eq_cellAt {cells : List (List Int)} {j : Nat} (h : j < cells.length) :
    cells[j]? = some (cellAt cells j) := by
  simp [cellAt, List.getElem?_eq_getElem h]

theorem cellAt_mem {cells : List (List Int)} {j : Nat} (h : j < cells.length) :
    cellAt cells j ∈ cells := by
  have e : cellAt cells j = cells[j] := by simp [cellAt, List.getElem?_eq_getElem h]
  rw [e]
  exact List.getElem_mem h


theorem cells_ext {cells cells' : List (List Int)} (hlen : cells.length = cells'.length)
    (h : ∀ j, j < cells.length → cellAt cells j = cellAt cells' j) : cells = cells' := by
  apply List.ext_getElem?
  intro j
  by_cases hj : j < cells.length
  · rw [getElem?_eq_cellAt hj, getElem?_eq_cellAt (hlen ▸ hj), h j hj]
  · rw [List.getElem?_eq_none (by omega), List.getElem?_eq_none (by omega)]

theorem elim_nil (v : Int) : elim v [] = [] := rfl

theorem cellAt_elimIn (P : Nat → Bool) (v : Int) (cells : List (List Int)) (j : Nat) :
    cellAt (elimIn P v cells) j = if P j then elim v (cellAt cells j) else cellAt cells j := by
  unfold cellAt
  rw [elimIn_getElem?]
  cases cells[j]? with
  | none => cases P j <;> simp [elim_nil]
  | some c => cases P j <;> simp

theorem visit_of_single {y x : Nat} {cells : List (List Int)} {d : Int}
    (h : cellAt cells (y * 9 + x) = [d]) : visit y x cells = elimIn (peers y x) d cells := by
  unfold visit
  unfold cellAt at h
  cases hc : cells[y * 9 + x]? with
  | none => rw [hc] at h; simp at h
  | some c =>
    rw [hc] at h
    simp only [Option.getD_some] at h
    rw [h]

theorem visit_of_not_single {y x : Nat} {cells : List (List Int)}
    (h : ∀ d, cellAt cells (y * 9 + x) ≠ [d]) : visit y x cells = cells := by
  unfold visit
  split
  · rename_i d hd
    exact absurd (cellAt_of_getElem? hd) (h d)
  · rfl

/-- A visit either changes nothing or eliminates the digit of the visited cell from
its peers. -/
theorem visit_cases (y x : Nat) (cells : List (List Int)) :
    visit y x cells = cells ∨
      ∃ d, cellAt cells (y * 9 + x) = [d] ∧ visit y x cells = elimIn (peers y x) d cells := by
  by_cases h : ∃ d, cellAt cells (y * 9 + x) = [d]
  · obtain ⟨d, hd⟩ := h
    exact Or.inr ⟨d, hd, visit_of_single hd⟩
  · exact Or.inl (visit_of_not_single (fun d hd => h ⟨d, hd⟩))

/-! ## Completed Sudokus -/

theorem empty_square_nodup : empty_square.Nodup := by decide

theorem ValidSolution.row_inj {S : Nat → Nat → Int} (hS : ValidSolution S) {r c c' : Nat}
    (hr : r < 9) (hc : c < 9) (hc' : c' < 9) (h : S r c = S r c') : c = c' := by
  have hnd : (rowOf S r).Nodup := (hS r hr).1.nodup_iff.mpr empty_square_nodup
  exact List.inj_on_of_nodup_map hnd (List.mem_range.mpr hc) (List.mem_range.mpr hc') h

theorem ValidSolution.col_inj {S : Nat → Nat → Int} (hS : ValidSolution S) {c r r' : Nat}
    (hc : c < 9) (hr : r < 9) (hr' : r' < 9) (h : S r c = S r' c) : r = r' := by
  have hnd : (colOf S c).Nodup := (hS c hc).2.1.nodup_iff.mpr empty_square_nodup
  exact List.inj_on_of_nodup_map hnd (List.mem_range.mpr hr) (List.mem_range.mpr hr') h

theorem ValidSolution.box_inj {S : Nat → Nat → Int} (hS : ValidSolution S) {r c r' c' : Nat}
    (hr : r < 9) (hc : c < 9) (_hr' : r' < 9) (_hc' : c' < 9)
    (hbr : r / 3 = r' / 3) (hbc : c / 3 = c' / 3) (h : S r c = S r' c') : r = r' ∧ c = c' := by
  have hk : 3 * (r / 3) + c / 3 < 9 := by omega
  have hnd : (boxOf S (3 * (r / 3) + c / 3)).Nodup :=
    (hS _ hk).2.2.nodup_iff.mpr empty_square_nodup
  have hi : 3 * (r % 3) + c % 3 ∈ List.range 9 := List.mem_range.mpr (by omega)
  have hi' : 3 * (r' % 3) + c' % 3 ∈ List.range 9 := List.mem_range.mpr (by omega)
  have e1 : 3 * ((3 * (r / 3) + c / 3) / 3) + (3 * (r % 3) + c % 3) / 3 = r := by omega
  have e2 : 3 * ((3 * (r / 3) + c / 3) % 3) + (3 * (r % 3) + c % 3) % 3 = c := by omega
  have e3 : 3 * ((3 * (r / 3) + c / 3) / 3) + (3 * (r' % 3) + c' % 3) / 3 = r' := by omega
  have e4 : 3 * ((3 * (r / 3) + c / 3) % 3) + (3 * (r' % 3) + c' % 3) % 3 = c' := by omega
  have := List.inj_on_of_nodup_map hnd hi hi' (by
    show S _ _ = S _ _
    rw [e1, e2, e3, e4]; exact h)
  omega

/-- Two different cells that see each other hold different digits in a valid Sudoku. -/
theorem ValidSolution.peers_ne {S : Nat → Nat → Int} (hS : ValidSolution S) {y x r c : Nat}
    (hy : y < 9) (hx : x < 9) (hr : r < 9) (hc : c < 9)
    (hp : peers y x (r * 9 + c) = true) (hne : r * 9 + c ≠ y * 9 + x) : S r c ≠ S y x := by
  intro h
  have e1 : (r * 9 + c) % 9 = c := by omega
  have e2 : (r * 9 + c) / 9 = r := by omega
  simp only [peers, inColumn, inRow, inBox, Bool.or_eq_true, Bool.and_eq_true, beq_iff_eq,
    e1, e2] at hp
  rcases hp with (hp | hp) | hp
  · subst hp
    have := hS.col_inj hc hr hy h
    omega
  · subst hp
    have := hS.row_inj hr hc hx h
    omega
  · have := hS.box_inj hr hc hy hx hp.1 hp.2 h
    omega

theorem mem_eraseValue {c : List Int} {v d : Int} : d ∈ eraseValue c v ↔ d ∈ c ∧ d ≠ v := by
  simp [eraseValue]

theorem Agrees.visit {S : Nat → Nat → Int} (hS : ValidSolution S) {cells : List (List Int)}
    (h : Agrees S cells) {y x : Nat} (hy : y < 9) (hx : x < 9) : Agrees S (visit y x cells) := by
  rcases visit_cases y x cells with hv | ⟨d, hd, hv⟩
  · rw [hv]; exact h
  · rw [hv]
    refine ⟨by rw [elimIn_length]; exact h.1, ?_⟩
    intro r hr c hc
    have hmem := h.2 r hr c hc
    have hd' : d = S y x := by
      have := h.2 y hy x hx
      rw [hd] at this
      exact (List.mem_singleton.mp this).symm
    rw [cellAt_elimIn]
    split
    · rename_i hp
      unfold elim
      split
      · rename_i hlen
        rw [mem_eraseValue]
        refine ⟨hmem, ?_⟩
        rw [hd']
        apply hS.peers_ne hy hx hr hc hp
        intro heq
        rw [heq, hd] at hlen
        simp at hlen
      · exact hmem
    · exact hmem

/-! ## `isSolved` and the loop of `Solve` -/

theorem isCellEmpty_eq (b : SudokuBoard) (hb : Is9x9 b) (y x : Nat) (hy : y < 9) (hx : x < 9) :
    b.isCellEmpty y x = .ok (decide ((cellAt b.cells (y * 9 + x)).length > 1)) := by
  have hidx : y * 9 + x < b.cells.length := by rw [hb.2]; omega
  unfold isCellEmpty
  rw [hb.1, at_eq_ok hidx]
  have : cellAt b.cells (y * 9 + x) = b.cells[y * 9 + x] := by
    simp [cellAt, List.getElem?_eq_getElem hidx]
  rw [this]
  rfl

theorem isSolvedRow_eq (b : SudokuBoard) (hb : Is9x9 b) (y : Nat) (hy : y < 9) (xs : List Nat)
    (hxs : ∀ x ∈ xs, x < 9) :
    b.isSolvedRow y xs
      = .ok (xs.all (fun x => decide ((cellAt b.cells (y * 9 + x)).length ≤ 1))) := by
  induction xs with
  | nil => rfl
  | cons x rest ih =>
    unfold isSolvedRow
    rw [isCellEmpty_eq b hb y x hy (hxs x (by simp))]
    simp only [bind, Except.bind, List.all_cons]
    by_cases h : (cellAt b.cells (y * 9 + x)).length > 1
    · have h' : ¬ (cellAt b.cells (y * 9 + x)).length ≤ 1 := by omega
      simp [h, h', pure, Except.pure]
    · have h' : (cellAt b.cells (y * 9 + x)).length ≤ 1 := by omega
      simp only [h, h', decide_False, decide_True, Bool.true_and]
      exact ih (fun x1 hx1 => hxs x1 (by simp [hx1]))

theorem isSolvedRows_eq (b : SudokuBoard) (hb : Is9x9 b) (ys : List Nat)
    (hys : ∀ y ∈ ys, y < 9) :
    b.isSolvedRows ys
      = .ok (ys.all (fun y => (List.range 9).all
          (fun x => decide ((cellAt b.cells (y * 9 + x)).length ≤ 1)))) := by
  induction ys with
  | nil => rfl
  | cons y rest ih =>
    unfold isSolvedRows
    rw [hb.1, isSolvedRow_eq b hb y (hys y (by simp)) _ (fun x hx => List.mem_range.mp hx)]
    simp only [bind, Except.bind, List.all_cons]
    cases hrow : (List.range 9).all
        (fun x => decide ((cellAt b.cells (y * 9 + x)).length ≤ 1)) with
    | false => simp [pure, Except.pure]
    | true =>
      simp only [if_true, Bool.true_and]
      exact ih (fun y1 hy1 => hys y1 (by simp [hy1]))

theorem isSolved_eq (b : SudokuBoard) (hb : Is9x9 b) :
    b.isSolved = .ok (decide (AllResolved b.cells)) := by
  unfold isSolved
  rw [hb.1, isSolvedRows_eq b hb _ (fun y hy => List.mem_range.mp hy)]
  congr 1
  rw [Bool.eq_iff_iff]
  simp only [List.all_eq_true, List.mem_range, decide_eq_true_eq, AllResolved]
  constructor
  · intro h j hj
    have := h (j / 9) (by omega) (j % 9) (by omega)
    rwa [Nat.div_add_mod' j 9] at this
  · intro h y hy x hx
    exact h _ (by omega)

theorem Solve_succ (fuel : Nat) (b : SudokuBoard) :
    Solve (fuel + 1) b
      = b.sweep >>= fun b1 => b1.isSolved >>= fun s => if !s then Solve fuel b1 else pure b1 := by
  rfl

/-- What `Solve` returns is the outcome of a positive number of sweeps and passes
the `isSolved` test. -/
theorem Solve_ok (fuel : Nat) (b b' : SudokuBoard) (h : Solve fuel b = .ok b') :
    ∃ n, sweeps (n + 1) b = .ok b' ∧ b'.isSolved = .ok true := by
  induction fuel generalizing b with
  | zero => simp [Solve] at h
  | succ fuel ih =>
    rw [Solve_succ] at h
    cases h1 : b.sweep with
    | error e => rw [h1] at h; simp [bind, Except.bind] at h
    | ok b1 =>
      rw [h1] at h
      simp only [bind, Except.bind] at h
      cases h2 : b1.isSolved with
      | error e => rw [h2] at h; simp at h
      | ok s =>
        rw [h2] at h
        cases s with
        | true =>
          simp [pure, Except.pure] at h
          subst h
          exact ⟨0, by simp [sweeps, h1, bind, Except.bind, pure, Except.pure], h2⟩
        | false =>
          simp only [Bool.not_false, if_true] at h
          obtain ⟨n, hn, hs⟩ := ih b1 h
          refine ⟨n + 1, ?_, hs⟩
          show (b.sweep >>= fun b1 => sweeps (n + 1) b1) = _
          rw [h1]
          exact hn

/-- The loop of `Solve` stops after the first sweep whose outcome passes `isSolved`. -/
theorem Solve_of_sweep_solved (fuel : Nat) (b b1 : SudokuBoard) (h1 : b.sweep = .ok b1)
    (h2 : b1.isSolved = .ok true) : Solve (fuel + 1) b = .ok b1 := by
  rw [Solve_succ, h1]
  simp [bind, Except.bind, h2, pure, Except.pure]

/-- An invariant of visits holds for whatever `n` sweeps return. -/
theorem sweeps_partial (Inv : List (List Int) → Prop)
    (hlen : ∀ cells, Inv cells → cells.length = 81)
    (hstep : ∀ y x cells, y < 9 → x < 9 → Inv cells → Inv (visit y x cells))
    (n : Nat) (b : SudokuBoard) (hb : b.board_size = 9) (h0 : Inv b.cells)
    (b' : SudokuBoard) (h : sweeps n b = .ok b') :
    ∃ cs, b' = b.withCells cs ∧ Inv cs := by
  induction n generalizing b with
  | zero =>
    simp [sweeps, pure, Except.pure] at h
    exact ⟨b.cells, by rw [← h]; rfl, h0⟩
  | succ n ih =>
    unfold sweeps at h
    cases h1 : b.sweep with
    | error e => rw [h1] at h; simp [bind, Except.bind] at h
    | ok b1 =>
      rw [h1] at h
      simp only [bind, Except.bind] at h
      obtain ⟨cs1, rfl, hI1⟩ := sweep_partial (fun _ => Inv) (fun _ => hlen)
        hstep b hb h0 b1 h1
      obtain ⟨cs2, h2, hI2⟩ := ih (b.withCells cs1) hb hI1 h
      exact ⟨cs2, h2, hI2⟩

/-- An invariant of visits that rules out empty cells makes `n` sweeps succeed. -/
theorem sweeps_total (Inv : List (List Int) → Prop)
    (hlen : ∀ cells, Inv cells → cells.length = 81)
    (hne : ∀ cells, Inv cells → ∀ i : Nat, cells[i]? ≠ some ([] : List Int))
    (hstep : ∀ y x cells, y < 9 → x < 9 → Inv cells → Inv (visit y x cells))
    (n : Nat) (b : SudokuBoard) (hb : b.board_size = 9) (h0 : Inv b.cells) :
    ∃ cs, sweeps n b = .ok (b.withCells cs) ∧ Inv cs := by
  induction n generalizing b with
  | zero => exact ⟨b.cells, rfl, h0⟩
  | succ n ih =>
    obtain ⟨cs1, h1, hI1⟩ := sweep_total (fun _ => Inv) (fun _ => hlen)
      (fun _ cells _ => hne cells) hstep b hb h0
    obtain ⟨cs2, h2, hI2⟩ := ih (b.withCells cs1) hb hI1
    refine ⟨cs2, ?_, hI2⟩
    unfold sweeps
    rw [h1]
    exact h2

theorem eq_singleton_of_mem_of_length_le_one {c : List Int} {d : Int} (hm : d ∈ c)
    (hl : c.length ≤ 1) : c = [d] := by
  match c, hm, hl with
  | [e], hm, _ => rw [List.mem_singleton.mp hm]
  | _ :: _ :: _, _, hl => simp at hl

/-- What `Solve` returns on a board that agrees with a valid Sudoku `S` is `S`. -/
theorem Solve_agrees {S : Nat → Nat → Int} (hS : ValidSolution S) (b : SudokuBoard)
    (hb : b.board_size = 9) (h0 : Agrees S b.cells) (fuel : Nat) (b' : SudokuBoard)
    (h : Solve fuel b = .ok b') :
    ∃ cs, b' = b.withCells cs ∧ cs.length = 81 ∧
      ∀ r, r < 9 → ∀ c, c < 9 → cellAt cs (r * 9 + c) = [S r c] := by
  obtain ⟨n, hn, hsolved⟩ := Solve_ok fuel b b' h
  obtain ⟨cs, rfl, hI⟩ := sweeps_partial (Agrees S) (fun _ h => h.1)
    (fun y x cells hy hx hA => hA.visit hS hy hx) (n + 1) b hb h0 b' hn
  refine ⟨cs, rfl, hI.1, ?_⟩
  intro r hr c hc
  rw [isSolved_eq (b.withCells cs) ⟨hb, hI.1⟩] at hsolved
  have hall : AllResolved cs := by simpa using hsolved
  exact eq_singleton_of_mem_of_length_le_one (hI.2 r hr c hc) (hall _ (by omega))

/-! ## What a visit preserves -/

theorem eraseValue_sublist (c : List Int) (v : Int) : (eraseValue c v).Sublist c :=
  List.filter_sublist c

theorem elim_sublist (v : Int) (c : List Int) : (elim v c).Sublist c := by
  unfold elim
  split
  · exact eraseValue_sublist c v
  · exact List.Sublist.refl c

theorem eraseValue_ne_nil {c : List Int} (v : Int) (hlen : c.length > 1) (hnd : c.Nodup) :
    eraseValue c v ≠ [] := by
  match c, hlen, hnd with
  | a :: e :: rest, _, hnd =>
    have hae : a ≠ e := by
      intro h
      rw [h] at hnd
      simp at hnd
    intro hnil
    have ha : a ∉ eraseValue (a :: e :: rest) v := by rw [hnil]; simp
    have he : e ∉ eraseValue (a :: e :: rest) v := by rw [hnil]; simp
    rw [mem_eraseValue] at ha he
    have h1 : a = v := by simpa using ha
    have h2 : e = v := by simpa using he
    exact hae (h1.trans h2.symm)

theorem elim_ne_nil {c : List Int} (v : Int) (hne : c ≠ []) (hnd : c.Nodup) : elim v c ≠ [] := by
  unfold elim
  split
  · rename_i hlen
    exact eraseValue_ne_nil v hlen hnd
  · exact hne

theorem elim_nodup {c : List Int} (v : Int) (hnd : c.Nodup) : (elim v c).Nodup :=
  hnd.sublist (elim_sublist v c)

theorem elimIn_mem {P : Nat → Bool} {v : Int} {cells : List (List Int)} {c' : List Int}
    (h : c' ∈ elimIn P v cells) : ∃ c ∈ cells, c' = c ∨ c' = elim v c := by
  obtain ⟨j, hj⟩ := List.getElem?_of_mem h
  rw [elimIn_getElem?] at hj
  cases hc : cells[j]? with
  | none => rw [hc] at hj; simp at hj
  | some c =>
    rw [hc] at hj
    simp only [Option.map_some', Option.some.injEq] at hj
    refine ⟨c, List.getElem?_mem hc, ?_⟩
    cases hP : P j <;> simp [hP] at hj
    · exact Or.inl hj.symm
    · exact Or.inr hj.symm


/-- Cells that are non-empty and free of repetitions stay so under elimination. -/
theorem elimIn_good {cells : List (List Int)} (h : ∀ c ∈ cells, c ≠ [] ∧ c.Nodup)
    (P : Nat → Bool) (v : Int) : ∀ c ∈ elimIn P v cells, c ≠ [] ∧ c.Nodup := by
  intro c' hc'
  obtain ⟨c, hc, hcc⟩ := elimIn_mem hc'
  rcases hcc with rfl | rfl
  · exact h _ hc
  · exact ⟨elim_ne_nil v (h c hc).1 (h c hc).2, elim_nodup v (h c hc).2⟩

theorem visit_good {cells : List (List Int)} (h : ∀ c ∈ cells, c ≠ [] ∧ c.Nodup)
    (y x : Nat) : ∀ c ∈ visit y x cells, c ≠ [] ∧ c.Nodup := by
  rcases visit_cases y x cells with hv | ⟨d, _, hv⟩
  · rw [hv]; exact h
  · rw [hv]; exact elimIn_good h _ _

theorem getElem?_ne_nil_of_good {cells : List (List Int)} (h : ∀ c ∈ cells, c ≠ [] ∧ c.Nodup)
    (i : Nat) : cells[i]? ≠ some ([] : List Int) := by
  intro hi
  exact (h [] (List.getElem?_mem hi)).1 rfl

/-- A cell with at most one candidate is not changed by elimination. -/
theorem cellAt_elimIn_short (P : Nat → Bool) (v : Int) (cells : List (List Int)) (j : Nat)
    (h : (cellAt cells j).length ≤ 1) : cellAt (elimIn P v cells) j = cellAt cells j := by
  rw [cellAt_elimIn]
  split
  · exact elim_short v _ h
  · rfl

theorem cellAt_visit_short (y x : Nat) (cells : List (List Int)) (j : Nat)
    (h : (cellAt cells j).length ≤ 1) : cellAt (visit y x cells) j = cellAt cells j := by
  rcases visit_cases y x cells with hv | ⟨d, _, hv⟩
  · rw [hv]
  · rw [hv]; exact cellAt_elimIn_short _ _ _ _ h

theorem cellAt_elimIn_sublist (P : Nat → Bool) (v : Int) (cells : List (List Int)) (j : Nat) :
    (cellAt (elimIn P v cells) j).Sublist (cellAt cells j) := by
  rw [cellAt_elimIn]
  split
  · exact elim_sublist v _
  · exact List.Sublist.refl _

theorem cellAt_visit_sublist (y x : Nat) (cells : List (List Int)) (j : Nat) :
    (cellAt (visit y x cells) j).Sublist (cellAt cells j) := by
  rcases visit_cases y x cells with hv | ⟨d, _, hv⟩
  · rw [hv]
  · rw [hv]; exact cellAt_elimIn_sublist _ _ _ _

theorem totalCandidates_le {cells cells' : List (List Int)} (hlen : cells'.length = cells.length)
    (h : ∀ j, j < cells.length → (cellAt cells' j).length ≤ (cellAt cells j).length) :
    totalCandidates cells' ≤ totalCandidates cells := by
  induction cells generalizing cells' with
  | nil =>
    have : cells' = [] := List.length_eq_zero.mp (by simpa using hlen)
    rw [this]
  | cons c rest ih =>
    match cells', hlen with
    | c' :: rest', hlen =>
      have h0 := h 0 (by simp)
      have hrest : totalCandidates rest' ≤ totalCandidates rest := by
        apply ih (by simpa using hlen)
        intro j hj
        have := h (j + 1) (by simp; omega)
        simpa [cellAt] using this
      simp only [cellAt, List.getElem?_cons_zero, Option.getD_some] at h0
      simp only [totalCandidates, List.map_cons, List.sum_cons] at hrest ⊢
      omega

/-! ## A sweep over a grid with one blank cell per row -/

theorem ValidSolution.mem_empty_square {S : Nat → Nat → Int} (hS : ValidSolution S) {r c : Nat}
    (hr : r < 9) (hc : c < 9) : S r c ∈ empty_square := by
  rw [← (hS r hr).1.mem_iff]
  exact List.mem_map.mpr ⟨c, List.mem_range.mpr hc, rfl⟩

theorem ValidSolution.exists_in_row {S : Nat → Nat → Int} (hS : ValidSolution S) {r : Nat}
    (hr : r < 9) {d : Int} (hd : d ∈ empty_square) : ∃ c, c < 9 ∧ S r c = d := by
  rw [← (hS r hr).1.mem_iff] at hd
  obtain ⟨c, hc, h⟩ := List.mem_map.mp hd
  exact ⟨c, List.mem_range.mp hc, h⟩

theorem eq_of_filter_length_one {l : List Nat} {p : Nat → Bool} (h : (l.filter p).length = 1)
    {a a' : Nat} (ha : a ∈ l) (hpa : p a = true) (ha' : a' ∈ l) (hpa' : p a' = true) : a = a' := by
  have m1 : a ∈ l.filter p := List.mem_filter.mpr ⟨ha, hpa⟩
  have m2 : a' ∈ l.filter p := List.mem_filter.mpr ⟨ha', hpa'⟩
  match hf : l.filter p, h with
  | [e], _ =>
    rw [hf] at m1 m2
    rw [List.mem_singleton.mp m1, List.mem_singleton.mp m2]

theorem eq_singleton_of_nodup {l : List Int} {a : Int} (hnd : l.Nodup) (ha : a ∈ l)
    (hall : ∀ d ∈ l, d = a) : l = [a] := by
  match l, hnd, ha, hall with
  | [e], _, ha, _ => rw [List.mem_singleton.mp ha]
  | e :: f :: rest, hnd, _, hall =>
    have h1 : e = a := hall e (by simp)
    have h2 : f = a := hall f (by simp)
    rw [h1, h2] at hnd
    simp at hnd

theorem Agrees.getElem?_ne_nil {S : Nat → Nat → Int} {cells : List (List Int)}
    (h : Agrees S cells) (i : Nat) : cells[i]? ≠ some ([] : List Int) := by
  intro hi
  by_cases h81 : i < 81
  · have := h.2 (i / 9) (by omega) (i % 9) (by omega)
    rw [Nat.div_add_mod' i 9, cellAt_of_getElem? hi] at this
    simp at this
  · rw [List.getElem?_eq_none (by rw [h.1]; omega)] at hi
    cases hi

/-- On a grid that shows `S` except for at most one blank cell in each row, one sweep
resolves every cell to the digit of `S`. -/
theorem sweep_one_blank {S : Nat → Nat → Int} (hS : ValidSolution S) (blank : Nat → Nat → Bool)
    (hrow : ∀ r, r < 9 → ((List.range 9).filter (fun c => blank r c)).length = 1)
    (b : SudokuBoard) (hb : Is9x9 b)
    (hcells : ∀ r, r < 9 → ∀ c, c < 9 →
      cellAt b.cells (r * 9 + c) = if blank r c then empty_square else [S r c]) :
    ∃ cs, b.sweep = .ok (b.withCells cs) ∧ cs.length = 81 ∧
      ∀ r, r < 9 → ∀ c, c < 9 → cellAt cs (r * 9 + c) = [S r c] := by
  have hA0 : Agrees S b.cells := by
    refine ⟨hb.2, fun r hr c hc => ?_⟩
    rw [hcells r hr c hc]
    split
    · exact hS.mem_empty_square hr hc
    · simp
  have key := sweep_total
    (fun k cs => Agrees S cs ∧ (∀ j, (cellAt cs j).Sublist (cellAt b.cells j)) ∧
      ∀ y, y < 9 → ∀ x, x < 9 → y * 9 + x < k → blank y x = false →
        ∀ c, c < 9 → c ≠ x → S y x ∉ cellAt cs (y * 9 + c))
    (fun _ _ h => h.1.1)
    (fun _ _ _ h => h.1.getElem?_ne_nil)
    (by
      intro y x cs hy hx ⟨hA, hsub, hprog⟩
      refine ⟨hA.visit hS hy hx, fun j => (cellAt_visit_sublist y x cs j).trans (hsub j), ?_⟩
      intro y' hy' x' hx' hlt hbl c hc hcx
      by_cases hk : y' * 9 + x' < y * 9 + x
      · intro hmem
        exact hprog y' hy' x' hx' hk hbl c hc hcx ((cellAt_visit_sublist y x cs _).subset hmem)
      · have hy'y : y' = y := by omega
        have hx'x : x' = x := by omega
        subst hy'y hx'x
        have hcell : cellAt cs (y' * 9 + x') = [S y' x'] := by
          have h1 := hsub (y' * 9 + x')
          rw [hcells y' hy x' hx, hbl] at h1
          simp only [Bool.false_eq_true, if_false] at h1
          exact eq_singleton_of_mem_of_length_le_one (hA.2 y' hy x' hx) (by simpa using h1.length_le)
        rw [visit_of_single hcell, cellAt_elimIn]
        have hp : peers y' x' (y' * 9 + c) = true := by
          have e2 : (y' * 9 + c) / 9 = y' := by omega
          simp [peers, inRow, e2]
        rw [hp, if_pos rfl]
        unfold elim
        split
        · rw [mem_eraseValue]
          exact fun h => h.2 rfl
        · rename_i hlen
          have hc1 := eq_singleton_of_mem_of_length_le_one (hA.2 y' hy c hc) (by omega)
          rw [hc1, List.mem_singleton]
          intro h
          exact hcx (hS.row_inj hy hx hc h).symm)
    b hb.1 ⟨hA0, fun j => List.Sublist.refl _, fun y _ x _ h => absurd h (by omega)⟩
  obtain ⟨cs, hrun, hA, hsub, hprog⟩ := key
  refine ⟨cs, hrun, hA.1, ?_⟩
  intro r hr c hc
  have h1 := hsub (r * 9 + c)
  rw [hcells r hr c hc] at h1
  cases hbl : blank r c with
  | false =>
    rw [hbl] at h1
    simp only [Bool.false_eq_true, if_false] at h1
    exact eq_singleton_of_mem_of_length_le_one (hA.2 r hr c hc) (by simpa using h1.length_le)
  | true =>
    rw [hbl] at h1
    simp only [if_true] at h1
    apply eq_singleton_of_nodup (empty_square_nodup.sublist h1) (hA.2 r hr c hc)
    intro d hd
    obtain ⟨c', hc', hSc'⟩ := hS.exists_in_row hr (h1.subset hd)
    by_cases hcc : c' = c
    · rw [← hSc', hcc]
    · have hbl' : blank r c' = false := by
        cases hb' : blank r c' with
        | false => rfl
        | true =>
          exact absurd (eq_of_filter_length_one (hrow r hr) (List.mem_range.mpr hc') hb'
            (List.mem_range.mpr hc) hbl) hcc
      have := hprog r hr c' hc' (by omega) hbl' c hc (Ne.symm hcc)
      rw [hSc'] at this
      exact absurd hd this

/-! ## Boards whose cells are the digits of a valid Sudoku -/

theorem filterMap_eq_map_of_some {α β : Type} (f : α → Option β) (g : α → β) (l : List α)
    (h : ∀ a ∈ l, f a = some (g a)) : l.filterMap f = l.map g := by
  induction l with
  | nil => rfl
  | cons a rest ih =>
    rw [List.filterMap_cons, h a (by simp)]
    simp only [List.map_cons]
    rw [ih (fun a1 ha1 => h a1 (by simp [ha1]))]

theorem noRepeatedDigit_of_solution {S : Nat → Nat → Int} (hS : ValidSolution S)
    {cells : List (List Int)}
    (h : ∀ r, r < 9 → ∀ c, c < 9 → cellAt cells (r * 9 + c) = [S r c]) :
    NoRepeatedDigit cells := by
  intro k hk
  have hrow : resolvedDigits cells (rowIndices k) = rowOf S k := by
    unfold resolvedDigits rowIndices rowOf
    rw [List.filterMap_map]
    apply filterMap_eq_map_of_some
    intro c hc
    simp only [Function.comp_apply]
    rw [h k hk c (List.mem_range.mp hc)]
  have hcol : resolvedDigits cells (colIndices k) = colOf S k := by
    unfold resolvedDigits colIndices colOf
    rw [List.filterMap_map]
    apply filterMap_eq_map_of_some
    intro r hr
    simp only [Function.comp_apply]
    rw [h r (List.mem_range.mp hr) k hk]
  have hbox : resolvedDigits cells (boxIndices k) = boxOf S k := by
    unfold resolvedDigits boxIndices boxOf
    rw [List.filterMap_map]
    apply filterMap_eq_map_of_some
    intro i hi
    have hi9 := List.mem_range.mp hi
    simp only [Function.comp_apply]
    rw [h _ (by omega) _ (by omega)]
  rw [hrow, hcol, hbox]
  exact ⟨(hS k hk).1.nodup_iff.mpr empty_square_nodup,
    (hS k hk).2.1.nodup_iff.mpr empty_square_nodup,
    (hS k hk).2.2.nodup_iff.mpr empty_square_nodup⟩


theorem cellAt_length_le_one_of_singletons {cells : List (List Int)}
    (h : ∀ c ∈ cells, c.length = 1) (j : Nat) : (cellAt cells j).length ≤ 1 := by
  by_cases hj : j < cells.length
  · have := h _ (cellAt_mem hj)
    omega
  · simp [cellAt, List.getElem?_eq_none (show cells.length ≤ j by omega)]

/-- A visit leaves a grid of resolved cells as it is. -/
theorem visit_of_singletons {cells : List (List Int)} (h : ∀ c ∈ cells, c.length = 1)
    (y x : Nat) : visit y x cells = cells := by
  apply cells_ext (visit_length y x cells)
  intro j _
  exact cellAt_visit_short y x cells j (cellAt_length_le_one_of_singletons h j)


/-! ## Runs on sample boards -/

/-- A sweep is its nine rows in order. -/
theorem sweep_of_rows (b0 b1 b2 b3 b4 b5 b6 b7 b8 b9 : SudokuBoard) (hsize : b0.board_size = 9)
    (h0 : b0.sweepRow 0 = .ok b1) (h1 : b1.sweepRow 1 = .ok b2) (h2 : b2.sweepRow 2 = .ok b3)
    (h3 : b3.sweepRow 3 = .ok b4) (h4 : b4.sweepRow 4 = .ok b5) (h5 : b5.sweepRow 5 = .ok b6)
    (h6 : b6.sweepRow 6 = .ok b7) (h7 : b7.sweepRow 7 = .ok b8) (h8 : b8.sweepRow 8 = .ok b9) :
    b0.sweep = .ok b9 := by
  have hrange : List.range 9 = [0, 1, 2, 3, 4, 5, 6, 7, 8] := by decide
  unfold sweep
  rw [hsize, hrange]
  simp only [List.foldlM_cons, List.foldlM_nil, h0, h1, h2, h3, h4, h5, h6, h7, h8, bind,
    Except.bind, pure, Except.pure]

theorem over_row0 :
    (overState empty_square empty_square).sweepRow 0
      = .ok (overState [9] [1, 2, 3, 4, 5, 6, 7, 9]) := by
  decide

theorem over_row1 :
    (overState [9] [1, 2, 3, 4, 5, 6, 7, 9]).sweepRow 1
      = .ok (overState [9] [1, 3, 4, 5, 6, 7, 9]) := by
  decide

theorem over_row2 :
    (overState [9] [1, 3, 4, 5, 6, 7, 9]).sweepRow 2
      = .ok (overState [9] [1, 3, 4, 6, 7, 9]) := by
  decide

theorem over_row3 :
    (overState [9] [1, 3, 4, 6, 7, 9]).sweepRow 3 = .ok (overState [9] [1]) := by
  decide

theorem over_row4 : (overState [9] [1]).sweepRow 4 = .ok (overState [9] [1]) := by
  decide

theorem over_row5 : (overState [9] [1]).sweepRow 5 = .ok (overState [9] [1]) := by
  decide

theorem over_row6 : (overState [9] [1]).sweepRow 6 = .ok (overState [9] [1]) := by
  decide

theorem over_row7 : (overState [9] [1]).sweepRow 7 = .ok (overState [9] [1]) := by
  decide

theorem over_row8 : (overState [9] [1]).sweepRow 8 = .ok (overState [9] [1]) := by
  decide

/-- The run of `Solve` on `overGivens`: one sweep, after which `isSolved` holds. -/
theorem over_run : Solve 1 (boardOfGivens overGivens) = .ok (boardOfGivens overResult) := by
  have hstart : boardOfGivens overGivens = overState empty_square empty_square := by decide
  have hend : boardOfGivens overResult = overState [9] [1] := by decide
  have hsolved : (overState [9] [1]).isSolved = .ok true := by decide
  rw [hstart, hend]
  exact Solve_of_sweep_solved 0 _ _
    (sweep_of_rows _ _ _ _ _ _ _ _ _ _ rfl over_row0 over_row1 over_row2 over_row3 over_row4
      over_row5 over_row6 over_row7 over_row8) hsolved

/-- The run of `Solve` on `oneBlankGivens`: one sweep completes the grid. -/
theorem oneBlank_run :
    Solve 1 (boardOfGivens oneBlankGivens) = .ok (boardOfGivens sampleDigits) := by
  obtain ⟨cs, hrun, hlen, hcs⟩ := sweep_one_blank (S := gridOf sampleDigits) (by decide)
    diagonalBlanks (by decide) (boardOfGivens oneBlankGivens) (by decide) (by decide)
  have hsample : ∀ j, j < 81 →
      cellAt (boardOfGivens sampleDigits).cells j = [gridOf sampleDigits (j / 9) (j % 9)] := by
    set_option maxRecDepth 100000 in decide
  have hcells : cs = (boardOfGivens sampleDigits).cells := by
    apply cells_ext (by rw [hlen]; decide)
    intro j hj
    rw [hlen] at hj
    have := hcs (j / 9) (by omega) (j % 9) (by omega)
    rw [Nat.div_add_mod' j 9] at this
    rw [this, hsample j hj]
  rw [hcells] at hrun
  refine Solve_of_sweep_solved 0 _ _ hrun ?_
  show (boardOfGivens sampleDigits).isSolved = .ok true
  rw [isSolved_eq _ (by decide)]
  decide

theorem cellAt_set (cells : List (List Int)) (i : Nat) (c : List Int) (hi : i < cells.length)
    (j : Nat) : cellAt (cells.set i c) j = if j = i then c else cellAt cells j := by
  unfold cellAt
  by_cases h : j = i
  · subst h
    simp [List.getElem?_set_self hi]
  · rw [List.getElem?_set_ne (Ne.symm h), if_neg h]

theorem assign_eq (t : SudokuBoard) (i : Nat) (c : List Int) (hi : i < t.cells.length) :
    t.assign i c = .ok (t.withCells (t.cells.set i c)) := by
  unfold SudokuBoard.assign
  rw [if_pos hi]
  rfl

theorem charAt_cons_zero (c : Char) (rest : List Char) : charAt (c :: rest) 0 = c := by
  simp [charAt]

theorem charAt_cons_succ (c : Char) (rest : List Char) (k : Nat) :
    charAt (c :: rest) (k + 1) = charAt rest k := by
  simp [charAt]

theorem rowAt_cons_zero (l : List Char) (rest : List (List Char)) :
    rowAt (l :: rest) 0 = l := by
  simp [rowAt]

theorem rowAt_cons_succ (l : List Char) (rest : List (List Char)) (k : Nat) :
    rowAt (l :: rest) (k + 1) = rowAt rest k := by
  simp [rowAt]

/-- The character loop of `operator>>` on a line that fits into row `row`. -/
theorem readChars_eq (row : Nat) (line : List Char) (i : Nat) (t : SudokuBoard) (ht : Is9x9 t)
    (hfit : row * 9 + i + line.length ≤ 81) :
    ∃ cs, readChars (row : Int) line i t = .ok (t.withCells cs) ∧ cs.length = 81 ∧
      ∀ j, cellAt cs j =
        if row * 9 + i ≤ j ∧ j < row * 9 + i + line.length
        then cellOfChar (charAt line (j - (row * 9 + i))) else cellAt t.cells j := by
  induction line generalizing i t with
  | nil =>
    refine ⟨t.cells, rfl, ht.2, fun j => ?_⟩
    rw [if_neg (by simp only [List.length_nil]; omega)]
  | cons c rest ih =>
    have hidx : ((row : Int) * (t.board_size : Int) + (i : Int)).toNat = row * 9 + i := by
      rw [ht.1]
      have : ((row : Int) * ((9 : Nat) : Int) + (i : Int)) = ((row * 9 + i : Nat) : Int) := by
        push_cast; ring
      rw [this, Int.toNat_ofNat]
    have hlen : row * 9 + i < t.cells.length := by
      rw [ht.2]; simp only [List.length_cons] at hfit; omega
    have ht1 : Is9x9 (t.withCells (t.cells.set (row * 9 + i) (cellOfChar c))) :=
      ht.withCells (by rw [List.length_set]; exact ht.2)
    obtain ⟨cs, hrun, hcslen, hcs⟩ := ih (i + 1) _ ht1
      (by simp only [List.length_cons] at hfit; omega)
    refine ⟨cs, ?_, hcslen, fun j => ?_⟩
    · unfold readChars
      simp only [hidx]
      by_cases hc : (c != ' ') = true
      · have e : cellOfChar c = [charValue c] := by unfold cellOfChar; rw [if_pos hc]
        rw [e] at hrun
        simp only [hc, if_true, assign_eq t _ _ hlen, bind, Except.bind]
        exact hrun
      · have e : cellOfChar c = empty_square := by unfold cellOfChar; rw [if_neg hc]
        rw [e] at hrun
        simp only [hc, if_false, assign_eq t _ _ hlen, bind, Except.bind]
        exact hrun
    · rw [hcs j, withCells_cells, cellAt_set _ _ _ hlen]
      simp only [List.length_cons]
      by_cases h1 : j = row * 9 + i
      · subst h1
        rw [if_neg (by omega), if_pos rfl, if_pos (by omega), Nat.sub_self, charAt_cons_zero]
      · by_cases h2 : row * 9 + (i + 1) ≤ j ∧ j < row * 9 + (i + 1) + rest.length
        · rw [if_pos h2, if_pos (by omega)]
          have : j - (row * 9 + i) = (j - (row * 9 + (i + 1))) + 1 := by omega
          rw [this, charAt_cons_succ]
        · rw [if_neg h2, if_neg h1, if_neg (by omega)]

theorem contentOf_cons (raw : List Char) (rest : List (List Char)) :
    contentOf (raw :: rest)
      = if (stripFormatting raw).length > 0 then stripFormatting raw :: contentOf rest
        else contentOf rest := by
  unfold contentOf
  rw [List.map_cons, List.filter_cons]
  by_cases h : (stripFormatting raw).length > 0 <;> simp [h]

/-- The line loop of `operator>>`: the content lines fill the rows from `k` on. -/
theorem readLines_eq (lines : List (List Char)) (k : Nat) (t : SudokuBoard) (ht : Is9x9 t)
    (hshape : ∀ l ∈ contentOf lines, l.length = 9)
    (hk : k + (contentOf lines).length ≤ 9) :
    ∃ cs, lines.foldlM readLine ((k : Int) - 1, t)
        = .ok (((k + (contentOf lines).length : Nat) : Int) - 1, t.withCells cs) ∧
      cs.length = 81 ∧
      ∀ j, cellAt cs j =
        if k * 9 ≤ j ∧ j < (k + (contentOf lines).length) * 9
        then cellOfChar (charAt (rowAt (contentOf lines) (j / 9 - k)) (j % 9))
        else cellAt t.cells j := by
  induction lines generalizing k t with
  | nil =>
    refine ⟨t.cells, rfl, ht.2, fun j => ?_⟩
    rw [if_neg (by simp only [contentOf, List.map_nil, List.filter_nil, List.length_nil]; omega)]
  | cons raw rest ih =>
    by_cases hline : (stripFormatting raw).length > 0
    · have hcont : contentOf (raw :: rest) = stripFormatting raw :: contentOf rest := by
        rw [contentOf_cons, if_pos hline]
      rw [hcont] at hshape hk ⊢
      simp only [List.length_cons] at hk ⊢
      have h9 : (stripFormatting raw).length = 9 := hshape _ (by simp)
      obtain ⟨cs1, hrun1, hlen1, hcs1⟩ := readChars_eq k (stripFormatting raw) 0 t ht
        (by omega)
      obtain ⟨cs, hrun, hlen, hcs⟩ := ih (k + 1) (t.withCells cs1) (ht.withCells hlen1)
        (fun l hl => hshape l (by simp [hl])) (by omega)
      refine ⟨cs, ?_, hlen, fun j => ?_⟩
      · rw [List.foldlM_cons]
        have hstep : readLine ((k : Int) - 1, t) raw
            = .ok ((((k + 1 : Nat) : Int)) - 1, t.withCells cs1) := by
          unfold readLine
          simp only [hline, if_true]
          have e : ((k : Int) - 1 + 1) = (k : Int) := by ring
          rw [e, hrun1]
          simp only [bind, Except.bind, pure, Except.pure]
          congr 2
          push_cast; ring
        rw [hstep]
        simp only [bind, Except.bind]
        rw [hrun]
        have e2 : k + 1 + (contentOf rest).length = k + ((contentOf rest).length + 1) := by omega
        rw [e2]
        rfl
      · rw [hcs j, withCells_cells, hcs1 j, h9]
        by_cases h1 : (k + 1) * 9 ≤ j ∧ j < (k + 1 + (contentOf rest).length) * 9
        · rw [if_pos h1, if_pos (by omega)]
          have : j / 9 - k = (j / 9 - (k + 1)) + 1 := by omega
          rw [this, rowAt_cons_succ]
        · rw [if_neg h1]
          by_cases h2 : k * 9 + 0 ≤ j ∧ j < k * 9 + 0 + 9
          · rw [if_pos h2, if_pos (by omega)]
            have e1 : j / 9 - k = 0 := by omega
            have e2 : j - (k * 9 + 0) = j % 9 := by omega
            rw [e1, e2, rowAt_cons_zero]
          · rw [if_neg h2, if_neg (by omega)]
    · have hcont : contentOf (raw :: rest) = contentOf rest := by
        rw [contentOf_cons, if_neg hline]
      rw [hcont] at hshape hk ⊢
      obtain ⟨cs, hrun, hlen, hcs⟩ := ih k t ht hshape hk
      refine ⟨cs, ?_, hlen, hcs⟩
      rw [List.foldlM_cons]
      have hnil : stripFormatting raw = [] := List.length_eq_zero.mp (by omega)
      have hstep : readLine ((k : Int) - 1, t) raw = .ok ((k : Int) - 1, t) := by
        unfold readLine
        simp only [hnil, List.length_nil, gt_iff_lt, Nat.lt_irrefl, if_false, readChars,
          bind, Except.bind, pure, Except.pure]
      rw [hstep]
      simp only [bind, Except.bind]
      exact hrun

/-- The outcome of `operator>>` on a text with nine content lines of nine characters each. -/
theorem read_eq (source : List Char) (target : SudokuBoard) (ht : Is9x9 target)
    (hrows : (contentOf (getlines source)).length = 9)
    (hshape : ∀ l ∈ contentOf (getlines source), l.length = 9) :
    ∃ cs, read source target = .ok (target.withCells cs) ∧ cs.length = 81 ∧
      ∀ r, r < 9 → ∀ c, c < 9 →
        cellAt cs (r * 9 + c) = cellOfChar (charAt (rowAt (contentOf (getlines source)) r) c) := by
  obtain ⟨cs, hrun, hlen, hcs⟩ := readLines_eq (getlines source) 0 target ht hshape (by omega)
  refine ⟨cs, ?_, hlen, fun r hr c hc => ?_⟩
  · unfold read
    have e : ((-1 : Int), target) = (((0 : Nat) : Int) - 1, target) := by simp
    rw [e, hrun]
    rfl
  · rw [hcs, if_pos (by omega)]
    have e1 : (r * 9 + c) / 9 - 0 = r := by omega
    have e2 : (r * 9 + c) % 9 = c := by omega
    rw [e1, e2]

/-! ## Writing a board -/

theorem foldlM_append_eq {α : Type} (f : List Char → α → Except Fault (List Char))
    (g : α → List Char) (l : List α)
    (h : ∀ a ∈ l, ∀ out, f out a = .ok (out ++ g a)) (out : List Char) :
    l.foldlM f out = .ok (out ++ l.flatMap g) := by
  induction l generalizing out with
  | nil => simp [pure, Except.pure]
  | cons a rest ih =>
    rw [List.foldlM_cons, h a (by simp)]
    simp only [bind, Except.bind]
    rw [ih (fun a1 ha1 => h a1 (by simp [ha1]))]
    simp [List.append_assoc]

theorem writeCell_eq (b : SudokuBoard) (hb : Is9x9 b) (y x : Nat) (hy : y < 9) (hx : x < 9)
    (d : Int) (hd : cellAt b.cells (y * 9 + x) = [d]) (out : List Char) :
    writeCell b y out x = .ok (out ++ cellText d x) := by
  have hidx : y * 9 + x < b.cells.length := by rw [hb.2]; omega
  have hat : b.at_ (y * 9 + x) = .ok [d] := by
    rw [at_eq_ok hidx]
    have : cellAt b.cells (y * 9 + x) = b.cells[y * 9 + x] := by
      simp [cellAt, List.getElem?_eq_getElem hidx]
    rw [← this, hd]
  unfold writeCell cellText
  rw [isCellEmpty_eq b hb y x hy hx, hd, hb.1, hat]
  by_cases hsep : (x + 1) % 3 = 0 ∧ x + 1 < 9
  · simp [bind, Except.bind, pure, Except.pure, front, hsep]
  · simp [bind, Except.bind, pure, Except.pure, front, hsep]

theorem writeRow_eq (b : SudokuBoard) (hb : Is9x9 b)
    (hcells : ∀ y, y < 9 → ∀ x, x < 9 → cellAt b.cells (y * 9 + x) = [digitAt b.cells y x])
    (y : Nat) (hy : y < 9) (out : List Char) :
    writeRow b out y = .ok (out ++ rowText (digitAt b.cells y) y) := by
  unfold writeRow rowText rowCellsText
  rw [hb.1, foldlM_append_eq (writeCell b y) (fun x => cellText (digitAt b.cells y x) x)]
  · by_cases hsep : (y + 1) % 3 = 0 ∧ y + 1 < 9
    · simp [bind, Except.bind, pure, Except.pure, hsep, List.append_assoc]
    · simp [bind, Except.bind, pure, Except.pure, hsep, List.append_assoc]
  · intro x hx out1
    have hx9 := List.mem_range.mp hx
    exact writeCell_eq b hb y x hy hx9 _ (hcells y hy x hx9) out1

/-- The text `operator<<` writes for a resolved board. -/
theorem write_eq (b : SudokuBoard) (hb : Is9x9 b)
    (hcells : ∀ y, y < 9 → ∀ x, x < 9 → cellAt b.cells (y * 9 + x) = [digitAt b.cells y x]) :
    write b = .ok (rowsText (digitAt b.cells) (List.range 9)) := by
  unfold write rowsText
  rw [hb.1, foldlM_append_eq (writeRow b) (fun y => rowText (digitAt b.cells y) y)]
  · simp
  · intro y hy out
    exact writeRow_eq b hb hcells y (List.mem_range.mp hy) out

/-! ## Reading back what was written -/

theorem digit_cases {d : Int} (h1 : 1 ≤ d) (h9 : d ≤ 9) :
    d = 1 ∨ d = 2 ∨ d = 3 ∨ d = 4 ∨ d = 5 ∨ d = 6 ∨ d = 7 ∨ d = 8 ∨ d = 9 := by
  omega

theorem printInt_digit {d : Int} (h1 : 1 ≤ d) (h9 : d ≤ 9) : printInt d = [digitChar d] := by
  rcases digit_cases h1 h9 with h | h | h | h | h | h | h | h | h <;> subst h <;> decide

theorem digitChar_plain {d : Int} (h1 : 1 ≤ d) (h9 : d ≤ 9) :
    digitChar d ≠ '\n' ∧ stripFormatting [digitChar d] = [digitChar d] ∧
      cellOfChar (digitChar d) = [d] := by
  rcases digit_cases h1 h9 with h | h | h | h | h | h | h | h | h <;> subst h <;> decide

theorem stripFormatting_append (l l' : List Char) :
    stripFormatting (l ++ l') = stripFormatting l ++ stripFormatting l' := by
  simp [stripFormatting, List.filter_append]

theorem cellText_digit {d : Int} (h1 : 1 ≤ d) (h9 : d ≤ 9) (x : Nat) :
    '\n' ∉ cellText d x ∧ stripFormatting (cellText d x) = [digitChar d] := by
  obtain ⟨hn, hs, _⟩ := digitChar_plain h1 h9
  unfold cellText
  rw [printInt_digit h1 h9, stripFormatting_append, hs]
  have hbar : stripFormatting ['|'] = [] := by decide
  split
  · refine ⟨?_, by rw [hbar, List.append_nil]⟩
    simp only [List.mem_append, List.mem_singleton, not_or]
    exact ⟨fun h => hn h.symm, by decide⟩
  · refine ⟨?_, by simp [stripFormatting]⟩
    simp only [List.append_nil, List.mem_singleton]
    exact fun h => hn h.symm

theorem rowCellsText_digit (D : Nat → Int) (hD : ∀ x, x < 9 → 1 ≤ D x ∧ D x ≤ 9) :
    '\n' ∉ rowCellsText D ∧
      stripFormatting (rowCellsText D) = (List.range 9).map (fun x => digitChar (D x)) := by
  unfold rowCellsText
  have hD' : ∀ x ∈ List.range 9, 1 ≤ D x ∧ D x ≤ 9 := fun x hx => hD x (List.mem_range.mp hx)
  generalize List.range 9 = xs at hD'
  induction xs with
  | nil => exact ⟨by simp, rfl⟩
  | cons x rest ih =>
    obtain ⟨hn, hs⟩ := cellText_digit (hD' x (by simp)).1 (hD' x (by simp)).2 x
    obtain ⟨hn', hs'⟩ := ih (fun x1 hx1 => hD' x1 (by simp [hx1]))
    rw [List.flatMap_cons, stripFormatting_append, hs, hs']
    refine ⟨?_, by simp⟩
    rw [List.mem_append, not_or]
    exact ⟨hn, hn'⟩

theorem getlines_append (l rest : List Char) (hl : '\n' ∉ l) :
    getlines (l ++ '\n' :: rest) = l :: getlines rest := by
  induction l with
  | nil => simp [getlines]
  | cons c l ih =>
    have hc : c ≠ '\n' := fun h => hl (by simp [h])
    have hl' : '\n' ∉ l := fun h => hl (by simp [h])
    rw [List.cons_append, getlines, if_neg hc, ih hl']

theorem contentOf_rowText (D : Nat → Int) (hD : ∀ x, x < 9 → 1 ≤ D x ∧ D x ≤ 9) (y : Nat)
    (rest : List Char) :
    contentOf (getlines (rowText D y ++ rest))
      = (List.range 9).map (fun x => digitChar (D x)) :: contentOf (getlines rest) := by
  obtain ⟨hn, hs⟩ := rowCellsText_digit D hD
  have hlen : ((List.range 9).map (fun x => digitChar (D x))).length > 0 := by simp
  unfold rowText
  by_cases hsep : (y + 1) % 3 = 0 ∧ y + 1 < 9
  · rw [if_pos hsep]
    have e : rowCellsText D ++ ['\n'] ++ ("---+---+---".toList ++ ['\n']) ++ rest
        = rowCellsText D ++ '\n' :: ("---+---+---".toList ++ '\n' :: rest) := by
      simp [List.append_assoc]
    rw [e, getlines_append _ _ hn, getlines_append _ _ (by decide), contentOf_cons, hs,
      if_pos hlen, contentOf_cons, if_neg (by decide)]
  · rw [if_neg hsep]
    have e : rowCellsText D ++ ['\n'] ++ [] ++ rest = rowCellsText D ++ '\n' :: rest := by
      simp [List.append_assoc]
    rw [e, getlines_append _ _ hn, contentOf_cons, hs, if_pos hlen]

theorem contentOf_rowsText (D : Nat → Nat → Int)
    (hD : ∀ y x, x < 9 → 1 ≤ D y x ∧ D y x ≤ 9) (ys : List Nat) :
    contentOf (getlines (rowsText D ys))
      = ys.map (fun y => (List.range 9).map (fun x => digitChar (D y x))) := by
  induction ys with
  | nil => rfl
  | cons y rest ih =>
    unfold rowsText at ih ⊢
    rw [List.flatMap_cons, contentOf_rowText (D y) (hD y) y, ih, List.map_cons]

theorem rowAt_map_range (f : Nat → List Char) (n r : Nat) (hr : r < n) :
    rowAt ((List.range n).map f) r = f r := by
  simp [rowAt, List.getElem?_map, List.getElem?_range hr]

theorem charAt_map_range (f : Nat → Char) (n c : Nat) (hc : c < n) :
    charAt ((List.range n).map f) c = f c := by
  simp [charAt, List.getElem?_map, List.getElem?_range hc]

/-- Reading the text written for a board of digits returns the cells of that board. -/
theorem read_write (b : SudokuBoard) (hb : Is9x9 b)
    (hdigits : ∀ c ∈ b.cells, c.length = 1 ∧ ∀ d ∈ c, 1 ≤ d ∧ d ≤ 9)
    (target : SudokuBoard) (ht : Is9x9 target) :
    write b = .ok (rowsText (digitAt b.cells) (List.range 9)) ∧
    read (rowsText (digitAt b.cells) (List.range 9)) target = .ok (target.withCells b.cells) := by
  have hcell : ∀ y, y < 9 → ∀ x, x < 9 →
      cellAt b.cells (y * 9 + x) = [digitAt b.cells y x] ∧
        1 ≤ digitAt b.cells y x ∧ digitAt b.cells y x ≤ 9 := by
    intro y hy x hx
    have hmem := cellAt_mem (show y * 9 + x < b.cells.length by rw [hb.2]; omega)
    obtain ⟨hlen, hd⟩ := hdigits _ hmem
    unfold digitAt
    match hc : cellAt b.cells (y * 9 + x), hlen, hd with
    | [d], _, hd => exact ⟨rfl, hd d (by simp)⟩
  have hD : ∀ y x, x < 9 → 1 ≤ (fun y x => if y < 9 then digitAt b.cells y x else 1) y x ∧
      (fun y x => if y < 9 then digitAt b.cells y x else 1) y x ≤ 9 := by
    intro y x hx
    by_cases hy : y < 9
    · simp only [hy, if_true]; exact (hcell y hy x hx).2
    · simp only [hy, if_false]; omega
  have htext : rowsText (digitAt b.cells) (List.range 9)
      = rowsText (fun y x => if y < 9 then digitAt b.cells y x else 1) (List.range 9) := by
    unfold rowsText
    apply List.flatMap_congr
    intro y hy
    have hy9 := List.mem_range.mp hy
    simp only [hy9, if_true]
  refine ⟨write_eq b hb (fun y hy x hx => (hcell y hy x hx).1), ?_⟩
  have hcontent := contentOf_rowsText _ hD (List.range 9)
  rw [← htext] at hcontent
  obtain ⟨cs, hrun, hlen, hcs⟩ := read_eq (rowsText (digitAt b.cells) (List.range 9)) target ht
    (by rw [hcontent]; simp) (by rw [hcontent]; intro l hl; obtain ⟨y, _, rfl⟩ := List.mem_map.mp hl; simp)
  rw [hrun]
  congr 2
  apply cells_ext (by rw [hlen, hb.2])
  intro j hj
  rw [hlen] at hj
  have h1 := hcs (j / 9) (by omega) (j % 9) (by omega)
  rw [Nat.div_add_mod' j 9, hcontent, rowAt_map_range _ _ _ (by omega),
    charAt_map_range _ _ _ (by omega)] at h1
  have hy : j / 9 < 9 := by omega
  simp only [hy, if_true] at h1
  obtain ⟨hc, hd1, hd9⟩ := hcell (j / 9) hy (j % 9) (by omega)
  rw [Nat.div_add_mod' j 9] at hc
  rw [h1, hc]
  exact (digitChar_plain hd1 hd9).2.2

/-! ## One resolved cell propagated -/

/-- The three eliminations of `Solve` for one cell, in the order of the source, amount
to one elimination from the peers of the cell. -/
theorem cross_three_eq (b : SudokuBoard) (hb : Is9x9 b) (r c : Nat) (hr : r < 9) (hc : c < 9)
    (v : Int) :
    b.crossVertical c v = .ok (b.withCells (elimIn (inColumn c) v b.cells)) ∧
    (b.withCells (elimIn (inColumn c) v b.cells)).crossHorizontal r v
      = .ok (b.withCells (elimIn (inRow r) v (elimIn (inColumn c) v b.cells))) ∧
    (b.withCells (elimIn (inRow r) v (elimIn (inColumn c) v b.cells))).crossBox r c v
      = .ok (b.withCells (elimIn (peers r c) v b.cells)) := by
  have h1 := hb.elimIn (inColumn c) v
  have h2 : Is9x9 (b.withCells (elimIn (inRow r) v (elimIn (inColumn c) v b.cells))) :=
    h1.elimIn (inRow r) v
  refine ⟨crossVertical_eq b hb c hc v, ?_, ?_⟩
  · rw [crossHorizontal_eq _ h1 r hr v]
    rfl
  · rw [crossBox_eq _ h2 r c hr hc v]
    simp only [withCells_cells, withCells_withCells, elimIn_elimIn]
    rfl

theorem peers_iff (r c y x : Nat) (_hy : y < 9) (hx : x < 9) :
    peers r c (y * 9 + x) = true ↔
      (y = r ∨ x = c ∨ (3 * (r / 3) ≤ y ∧ y < 3 * (r / 3) + 3 ∧
        3 * (c / 3) ≤ x ∧ x < 3 * (c / 3) + 3)) := by
  have e1 : (y * 9 + x) % 9 = x := by omega
  have e2 : (y * 9 + x) / 9 = y := by omega
  simp only [peers, inColumn, inRow, inBox, Bool.or_eq_true, Bool.and_eq_true, beq_iff_eq,
    e1, e2]
  constructor
  · rintro ((h | h) | h)
    · exact Or.inr (Or.inl h)
    · exact Or.inl h
    · exact Or.inr (Or.inr (by omega))
  · rintro (h | h | h)
    · exact Or.inl (Or.inr h)
    · exact Or.inl (Or.inl h)
    · exact Or.inr (by omega)

/-! ## The constructor -/

theorem new_cells (s : Nat) :
    (SudokuBoard.new s).cells = List.replicate ((s * s) % 2 ^ 32) [] := rfl

theorem new_square_size (s : Nat) :
    (SudokuBoard.new s).square_size * (SudokuBoard.new s).square_size ≤ s ∧
      s < ((SudokuBoard.new s).square_size + 1) * ((SudokuBoard.new s).square_size + 1) :=
  Nat.eq_sqrt.mp rfl

theorem eight_not_square : ¬ ∃ k : Nat, k * k = 8 := by
  rintro ⟨k, hk⟩
  have hlt : k < 3 := by nlinarith
  interval_cases k <;> omega

theorem new_eight : SudokuBoard.new 8
    = { cells := List.replicate 64 [], board_size := 8, square_size := 2 } := by
  have h : Nat.sqrt 8 = 2 := (Nat.eq_sqrt.mpr ⟨by decide, by decide⟩).symm
  unfold SudokuBoard.new
  rw [h]
  rfl

/-! ## Faults of a sweep -/

theorem foldlM_range_cases {σ : Type} (f : σ → Nat → Except Fault σ) (n : Nat)
    (I : Nat → σ → Prop) (e : Fault)
    (hstep : ∀ k, k < n → ∀ s, I k s → f s k = .error e ∨ ∃ s', f s k = .ok s' ∧ I (k + 1) s')
    (s : σ) (h0 : I 0 s) :
    (List.range n).foldlM f s = .error e ∨ ∃ s', (List.range n).foldlM f s = .ok s' ∧ I n s' := by
  induction n with
  | zero => exact Or.inr ⟨s, rfl, h0⟩
  | succ n ih =>
    rw [List.range_succ, List.foldlM_append]
    rcases ih (fun k hk => hstep k (by omega)) with herr | ⟨s1, hs1, hI1⟩
    · left
      rw [herr]
      rfl
    · rw [hs1]
      rcases hstep n (by omega) s1 hI1 with herr | ⟨s2, hs2, hI2⟩
      · left
        simp [bind, Except.bind, herr]
      · right
        exact ⟨s2, by simp [bind, Except.bind, hs2, pure, Except.pure], hI2⟩

/-- A sweep of a board of side 9 either reads element `[0]` of an empty cell or
returns; what it returns satisfies `K 81` when `K k` holds before the `k`-th visit and
is carried along by every visit of a cell that is not empty. -/
theorem sweep_cases (K : Nat → List (List Int) → Prop)
    (hlen : ∀ k cells, K k cells → cells.length = 81)
    (hstep : ∀ y x cells, y < 9 → x < 9 → K (y * 9 + x) cells →
      cells[y * 9 + x]? ≠ some ([] : List Int) → K (y * 9 + x + 1) (visit y x cells))
    (b : SudokuBoard) (hb : b.board_size = 9) (h0 : K 0 b.cells) :
    b.sweep = .error .empty_subscript ∨ ∃ cs, b.sweep = .ok (b.withCells cs) ∧ K 81 cs := by
  have hrow : ∀ y, y < 9 → ∀ s : SudokuBoard, (∃ cs, s = b.withCells cs ∧ K (y * 9) cs) →
      s.sweepRow y = .error .empty_subscript ∨
        ∃ s', s.sweepRow y = .ok s' ∧ ∃ cs, s' = b.withCells cs ∧ K ((y + 1) * 9) cs := by
    intro y hy s hs
    obtain ⟨cs, rfl, hK⟩ := hs
    unfold sweepRow
    rw [withCells_board_size, hb]
    have := foldlM_range_cases (fun b1 x => b1.sweepCell y x) 9
      (fun x s => ∃ cs, s = b.withCells cs ∧ K (y * 9 + x) cs) .empty_subscript
      (by
        intro x hx s hs
        obtain ⟨cs1, rfl, hK1⟩ := hs
        have h9 : Is9x9 (b.withCells cs1) := ⟨hb, hlen _ _ hK1⟩
        by_cases he : cs1[y * 9 + x]? = some ([] : List Int)
        · exact Or.inl (sweepCell_empty _ h9 y x he)
        · exact Or.inr ⟨_, sweepCell_eq _ h9 y x hy hx he, _, rfl, hstep y x cs1 hy hx hK1 he⟩)
      (b.withCells cs) ⟨cs, rfl, hK⟩
    rcases this with herr | ⟨s', hs', cs', hcs', hK'⟩
    · exact Or.inl herr
    · exact Or.inr ⟨s', hs', cs', hcs', by rw [Nat.add_mul, Nat.one_mul]; exact hK'⟩
  have := foldlM_range_cases (fun b1 y => b1.sweepRow y) 9
    (fun y s => ∃ cs, s = b.withCells cs ∧ K (y * 9) cs) .empty_subscript hrow b
    ⟨b.cells, rfl, by simpa using h0⟩
  unfold sweep
  rw [hb]
  rcases this with herr | ⟨s', hs', cs', hcs', hK'⟩
  · exact Or.inl herr
  · exact Or.inr ⟨cs', by rw [hs', hcs'], hK'⟩

/-- On a 9x9 grid with an empty cell the sweep reads element `[0]` of an empty cell. -/
theorem sweep_of_empty_cell (b : SudokuBoard) (hb : Is9x9 b) (hempty : [] ∈ b.cells) :
    b.sweep = .error .empty_subscript := by
  obtain ⟨j0, hj0⟩ := List.getElem?_of_mem hempty
  have hj81 : j0 < 81 := by
    rw [← hb.2]
    exact (List.getElem?_eq_some.mp hj0).1
  rcases sweep_cases
      (fun k cells => cells.length = 81 ∧ cells[j0]? = some ([] : List Int) ∧ k ≤ j0)
      (fun _ _ h => h.1)
      (by
        intro y x cells hy hx ⟨hl, hc, hk⟩ hne
        refine ⟨by rw [visit_length]; exact hl, ?_, ?_⟩
        · have h1 : cellAt (visit y x cells) j0 = cellAt cells j0 :=
            cellAt_visit_short y x cells j0 (by rw [cellAt_of_getElem? hc]; simp)
          rw [cellAt_of_getElem? hc] at h1
          rw [getElem?_eq_cellAt (by rw [visit_length, hl]; exact hj81), h1]
        · rcases Nat.lt_or_ge (y * 9 + x) j0 with h | h
          · exact h
          · have : y * 9 + x = j0 := Nat.le_antisymm hk h
            rw [this] at hne
            exact absurd hc hne)
      b hb.1 ⟨hb.2, hj0, Nat.zero_le _⟩ with herr | ⟨cs, _, _, _, hk⟩
  · exact herr
  · omega

/-! ## Reading texts of any shape -/

theorem assign_error (t : SudokuBoard) (i : Nat) (c : List Int) (hi : ¬ i < t.cells.length) :
    t.assign i c = .error .out_of_range := by
  unfold SudokuBoard.assign
  rw [if_neg hi]

/-- The character loop fails when a character of the line gets an index from 81 on. -/
theorem readChars_fail (row : Nat) (chars : List Char) (i : Nat) (t : SudokuBoard)
    (ht : Is9x9 t) (hne : chars ≠ []) (hover : row * 9 + i + chars.length > 81) :
    readChars (row : Int) chars i t = .error .out_of_range := by
  induction chars generalizing i t with
  | nil => exact absurd rfl hne
  | cons c rest ih =>
    have hidx : ((row : Int) * (t.board_size : Int) + (i : Int)).toNat = row * 9 + i := by
      rw [ht.1]
      have : ((row : Int) * ((9 : Nat) : Int) + (i : Int)) = ((row * 9 + i : Nat) : Int) := by
        push_cast; ring
      rw [this, Int.toNat_ofNat]
    unfold readChars
    simp only [hidx]
    by_cases hin : row * 9 + i < 81
    · have hlen : row * 9 + i < t.cells.length := by rw [ht.2]; exact hin
      have ht1 : ∀ cell, Is9x9 (t.withCells (t.cells.set (row * 9 + i) cell)) :=
        fun cell => ht.withCells (by rw [List.length_set]; exact ht.2)
      have hrest : rest ≠ [] := by
        intro h
        rw [h] at hover
        simp at hover
        omega
      have hover' : row * 9 + (i + 1) + rest.length > 81 := by
        simp only [List.length_cons] at hover; omega
      by_cases hc : (c != ' ') = true
      · simp only [hc, if_true, assign_eq t _ _ hlen, bind, Except.bind]
        exact ih (i + 1) _ (ht1 _) hrest hover'
      · simp only [hc, if_false, assign_eq t _ _ hlen, bind, Except.bind]
        exact ih (i + 1) _ (ht1 _) hrest hover'
    · have hlen : ¬ row * 9 + i < t.cells.length := by rw [ht.2]; exact hin
      by_cases hc : (c != ' ') = true
      · simp only [hc, if_true, assign_error t _ _ hlen, bind, Except.bind]
      · simp [hc, assign_error t _ _ hlen, bind, Except.bind]

theorem readLine_skip (k : Int) (t : SudokuBoard) (raw : List Char)
    (hline : ¬ (stripFormatting raw).length > 0) : readLine (k, t) raw = .ok (k, t) := by
  have hnil : stripFormatting raw = [] := List.length_eq_zero.mp (by omega)
  unfold readLine
  simp only [hnil, List.length_nil, gt_iff_lt, Nat.lt_irrefl, if_false, readChars,
    bind, Except.bind, pure, Except.pure]

theorem readLine_content (k : Nat) (t : SudokuBoard) (raw : List Char)
    (hline : (stripFormatting raw).length > 0) :
    readLine ((k : Int) - 1, t) raw
      = (readChars (k : Int) (stripFormatting raw) 0 t).map (fun t1 => (((k + 1 : Nat) : Int) - 1, t1)) := by
  unfold readLine
  simp only [hline, if_true]
  have e : ((k : Int) - 1 + 1) = (k : Int) := by ring
  have e2 : (((k + 1 : Nat) : Int) - 1) = (k : Int) := by push_cast; ring
  rw [e, e2]
  cases readChars (k : Int) (stripFormatting raw) 0 t <;> rfl

/-- The line loop on content lines that all fit: every cell holds what was stored in
it last. -/
theorem readLines_written (lines : List (List Char)) (k : Nat) (t : SudokuBoard) (ht : Is9x9 t)
    (hfit : fits k (contentOf lines) = true) :
    ∃ cs, lines.foldlM readLine ((k : Int) - 1, t)
        = .ok (((k + (contentOf lines).length : Nat) : Int) - 1, t.withCells cs) ∧
      cs.length = 81 ∧
      ∀ j, cellAt cs j =
        match lastWritten k (contentOf lines) j with
        | some c => cellOfChar c
        | none => cellAt t.cells j := by
  induction lines generalizing k t with
  | nil => exact ⟨t.cells, rfl, ht.2, fun j => rfl⟩
  | cons raw rest ih =>
    by_cases hline : (stripFormatting raw).length > 0
    · have hcont : contentOf (raw :: rest) = stripFormatting raw :: contentOf rest := by
        rw [contentOf_cons, if_pos hline]
      rw [hcont] at hfit ⊢
      simp only [fits, Bool.and_eq_true, decide_eq_true_eq] at hfit
      obtain ⟨cs1, hrun1, hlen1, hcs1⟩ := readChars_eq k (stripFormatting raw) 0 t ht
        (by omega)
      obtain ⟨cs, hrun, hlen, hcs⟩ := ih (k + 1) (t.withCells cs1) (ht.withCells hlen1) hfit.2
      refine ⟨cs, ?_, hlen, fun j => ?_⟩
      · rw [List.foldlM_cons, readLine_content k t raw hline, hrun1]
        simp only [Except.map, bind, Except.bind]
        rw [hrun]
        have e2 : k + 1 + (contentOf rest).length
            = k + (stripFormatting raw :: contentOf rest).length := by
          simp only [List.length_cons]; omega
        rw [e2]
        rfl
      · rw [hcs j]
        simp only [lastWritten]
        cases lastWritten (k + 1) (contentOf rest) j with
        | some c => rfl
        | none =>
          simp only [withCells_cells]
          rw [hcs1 j]
          by_cases h2 : k * 9 + 0 ≤ j ∧ j < k * 9 + 0 + (stripFormatting raw).length
          · rw [if_pos h2, if_pos (by omega), Nat.add_zero]
          · rw [if_neg h2, if_neg (by omega)]
    · have hcont : contentOf (raw :: rest) = contentOf rest := by
        rw [contentOf_cons, if_neg hline]
      rw [hcont] at hfit ⊢
      obtain ⟨cs, hrun, hlen, hcs⟩ := ih k t ht hfit
      refine ⟨cs, ?_, hlen, hcs⟩
      rw [List.foldlM_cons, readLine_skip _ t raw hline]
      simp only [bind, Except.bind]
      exact hrun

/-- The line loop fails when some content line does not fit. -/
theorem readLines_fail (lines : List (List Char)) (k : Nat) (t : SudokuBoard) (ht : Is9x9 t)
    (hfit : fits k (contentOf lines) = false) :
    lines.foldlM readLine ((k : Int) - 1, t) = .error .out_of_range := by
  induction lines generalizing k t with
  | nil => simp [contentOf, fits] at hfit
  | cons raw rest ih =>
    by_cases hline : (stripFormatting raw).length > 0
    · have hcont : contentOf (raw :: rest) = stripFormatting raw :: contentOf rest := by
        rw [contentOf_cons, if_pos hline]
      rw [hcont] at hfit
      rw [List.foldlM_cons, readLine_content k t raw hline]
      by_cases hfirst : k * 9 + (stripFormatting raw).length ≤ 81
      · have hrest : fits (k + 1) (contentOf rest) = false := by
          simpa [fits, hfirst] using hfit
        obtain ⟨cs1, hrun1, hlen1, _⟩ := readChars_eq k (stripFormatting raw) 0 t ht
          (by omega)
        rw [hrun1]
        simp only [Except.map, bind, Except.bind]
        exact ih (k + 1) _ (ht.withCells hlen1) hrest
      · rw [readChars_fail k (stripFormatting raw) 0 t ht
          (by intro h; rw [h] at hline; simp at hline) (by omega)]
        rfl
    · have hcont : contentOf (raw :: rest) = contentOf rest := by
        rw [contentOf_cons, if_neg hline]
      rw [hcont] at hfit
      rw [List.foldlM_cons, readLine_skip _ t raw hline]
      simp only [bind, Except.bind]
      exact ih k t ht hfit

theorem cellOfChar_eq (c : Char) :
    cellOfChar c = if c = ' ' then empty_square
      else [(if c.toNat < 128 then (c.toNat : Int) else (c.toNat : Int) - 256) - 48] := by
  unfold cellOfChar charValue charToInt
  by_cases h : c = ' ' <;> simp [h]

theorem new_four : SudokuBoard.new 4
    = { cells := List.replicate 16 [], board_size := 4, square_size := 2 } := by
  have h : Nat.sqrt 4 = 2 := (Nat.eq_sqrt.mpr ⟨by decide, by decide⟩).symm
  unfold SudokuBoard.new
  rw [h]
  rfl

/-! ## The written text, line by line -/

theorem ite_ne_of {p : Prop} [Decidable p] {a b x : Char} (ha : a ≠ x) (hb : b ≠ x) :
    (if p then a else b) ≠ x := by
  split <;> assumption

theorem digitChar_ne_newline (m : Nat) : Nat.digitChar m ≠ '\n' := by
  unfold Nat.digitChar
  repeat' apply ite_ne_of
  all_goals decide

theorem toDigitsCore_no_newline (fuel n : Nat) (ds : List Char) (h : '\n' ∉ ds) :
    '\n' ∉ Nat.toDigitsCore 10 fuel n ds := by
  induction fuel generalizing n ds with
  | zero => exact h
  | succ fuel ih =>
    unfold Nat.toDigitsCore
    have hd : '\n' ∉ Nat.digitChar (n % 10) :: ds := by
      rw [List.mem_cons, not_or]
      exact ⟨fun e => digitChar_ne_newline _ e.symm, h⟩
    simp only []
    split
    · exact hd
    · exact ih _ _ hd

theorem natRepr_no_newline (n : Nat) : '\n' ∉ (Nat.repr n).toList := by
  unfold Nat.repr Nat.toDigits
  exact toDigitsCore_no_newline _ _ _ (by simp)

/-- The decimal representation of an `int` contains no newline. -/
theorem printInt_no_newline (n : Int) : '\n' ∉ printInt n := by
  unfold printInt
  cases n with
  | ofNat m => exact natRepr_no_newline m
  | negSucc m =>
    show '\n' ∉ ("-" ++ Nat.repr (Nat.succ m)).data
    rw [String.data_append, List.mem_append, not_or]
    exact ⟨by decide, natRepr_no_newline _⟩

theorem cellGlyph_no_newline (cell : List Int) : '\n' ∉ cellGlyph cell := by
  unfold cellGlyph
  split
  · exact printInt_no_newline _
  · decide

theorem formatRow_no_newline (cells : List (List Int)) (y : Nat) :
    '\n' ∉ formatRow cells y := by
  unfold formatRow
  rw [List.mem_flatMap]
  rintro ⟨x, _, hx⟩
  rw [List.mem_append] at hx
  rcases hx with hx | hx
  · exact cellGlyph_no_newline _ hx
  · split at hx
    · exact absurd hx (by decide)
    · exact absurd hx (by simp)

theorem writeCell_glyph (b : SudokuBoard) (hb : Is9x9 b) (y x : Nat) (hy : y < 9) (hx : x < 9)
    (hne : cellAt b.cells (y * 9 + x) ≠ []) (out : List Char) :
    writeCell b y out x = .ok (out ++ (cellGlyph (cellAt b.cells (y * 9 + x)) ++
      if x + 1 = 3 ∨ x + 1 = 6 then ['|'] else [])) := by
  have hidx : y * 9 + x < b.cells.length := by rw [hb.2]; omega
  have hat : b.at_ (y * 9 + x) = .ok (cellAt b.cells (y * 9 + x)) := by
    rw [at_eq_ok hidx]
    have : cellAt b.cells (y * 9 + x) = b.cells[y * 9 + x] := by
      simp [cellAt, List.getElem?_eq_getElem hidx]
    rw [this]
  have hsep : ((x + 1) % 3 = 0 ∧ x + 1 < 9) ↔ (x + 1 = 3 ∨ x + 1 = 6) := by omega
  unfold writeCell
  rw [isCellEmpty_eq b hb y x hy hx, hb.1, hat]
  match hc : cellAt b.cells (y * 9 + x), hne with
  | [d], _ =>
    simp only [bind, Except.bind, pure, Except.pure, front, cellGlyph, hsep]
    by_cases hs : x + 1 = 3 ∨ x + 1 = 6
    · simp only [if_pos hs]
      simp [front]
    · simp only [if_neg hs]
      simp [front]
  | d :: e :: rest, _ =>
    simp only [bind, Except.bind, pure, Except.pure, cellGlyph, hsep]
    by_cases hs : x + 1 = 3 ∨ x + 1 = 6
    · simp only [if_pos hs]
      simp [front]
    · simp only [if_neg hs]
      simp [front]

theorem writeRow_format (b : SudokuBoard) (hb : Is9x9 b) (hne : ∀ c ∈ b.cells, c ≠ [])
    (y : Nat) (hy : y < 9) (out : List Char) :
    writeRow b out y = .ok (out ++ (formatRow b.cells y ++ ['\n'] ++
      if (y + 1) % 3 = 0 ∧ (y + 1) < 9 then "---+---+---".toList ++ ['\n'] else [])) := by
  unfold writeRow formatRow
  rw [hb.1, foldlM_append_eq (writeCell b y)
    (fun x => cellGlyph (cellAt b.cells (y * 9 + x)) ++
      if x + 1 = 3 ∨ x + 1 = 6 then ['|'] else [])]
  · by_cases hsep : (y + 1) % 3 = 0 ∧ y + 1 < 9
    · simp [bind, Except.bind, pure, Except.pure, hsep, List.append_assoc]
    · simp [bind, Except.bind, pure, Except.pure, hsep, List.append_assoc]
  · intro x hx out1
    have hx9 := List.mem_range.mp hx
    exact writeCell_glyph b hb y x hy hx9
      (hne _ (cellAt_mem (by rw [hb.2]; omega))) out1

/-- The text `operator<<` writes for a board without empty cells, as eleven lines. -/
theorem write_format (b : SudokuBoard) (hb : Is9x9 b) (hne : ∀ c ∈ b.cells, c ≠ []) :
    write b = .ok ((formatLines b.cells).flatMap (fun l => l ++ ['\n'])) := by
  have hrange : List.range 9 = [0, 1, 2, 3, 4, 5, 6, 7, 8] := by decide
  unfold write
  rw [hb.1, foldlM_append_eq (writeRow b)
    (fun y => formatRow b.cells y ++ ['\n'] ++
      if (y + 1) % 3 = 0 ∧ (y + 1) < 9 then "---+---+---".toList ++ ['\n'] else [])]
  · rw [hrange]
    simp [formatLines, List.append_assoc]
  · intro y hy out
    exact writeRow_format b hb hne y (List.mem_range.mp hy) out

theorem getlines_flatMap (ls : List (List Char)) (h : ∀ l ∈ ls, '\n' ∉ l) :
    getlines (ls.flatMap (fun l => l ++ ['\n'])) = ls := by
  induction ls with
  | nil => rfl
  | cons l rest ih =>
    rw [List.flatMap_cons, List.append_assoc, List.singleton_append,
      getlines_append _ _ (h l (by simp)), ih (fun l1 hl1 => h l1 (by simp [hl1]))]

/-! ## The claims -/

/-- C1: for a 9x9 grid of givens (each cell a single digit or the full list 1..9) and
a valid completed Sudoku `S` that agrees with the givens, whatever `Solve` returns
holds in every cell exactly the one digit `S r c`. -/
theorem Solve_matches_solution (b : SudokuBoard) (S : Nat → Nat → Int) (hb : Is9x9 b)
    (_hgivens : ∀ c ∈ b.cells, c = empty_square ∨ c.length = 1)
    (hS : ValidSolution S)
    (hagree : ∀ r, r < 9 → ∀ c, c < 9 → S r c ∈ cellAt b.cells (r * 9 + c))
    (fuel : Nat) (b' : SudokuBoard) (hrun : Solve fuel b = .ok b') :
    Is9x9 b' ∧ ∀ r, r < 9 → ∀ c, c < 9 → cellAt b'.cells (r * 9 + c) = [S r c] := by
  obtain ⟨cs, rfl, hlen, hcells⟩ := Solve_agrees hS b hb.1 ⟨hb.2, hagree⟩ fuel b' hrun
  exact ⟨hb.withCells hlen, hcells⟩

/-- Witness of C1: the puzzle `oneBlankGivens`, which `Solve` completes to
`sampleDigits`. -/
theorem Solve_matches_solution_witness :
    Is9x9 (boardOfGivens oneBlankGivens) ∧
    (∀ c ∈ (boardOfGivens oneBlankGivens).cells, c = empty_square ∨ c.length = 1) ∧
    ValidSolution (gridOf sampleDigits) ∧
    (∀ r, r < 9 → ∀ c, c < 9 →
      gridOf sampleDigits r c ∈ cellAt (boardOfGivens oneBlankGivens).cells (r * 9 + c)) ∧
    Solve 1 (boardOfGivens oneBlankGivens) = .ok (boardOfGivens sampleDigits) ∧
    ∀ r, r < 9 → ∀ c, c < 9 →
      cellAt (boardOfGivens sampleDigits).cells (r * 9 + c) = [gridOf sampleDigits r c] :=
  ⟨by decide, by decide, by decide, by decide, oneBlank_run,
    (Solve_matches_solution (boardOfGivens oneBlankGivens) (gridOf sampleDigits) (by decide)
      (by decide) (by decide) (by decide) 1 (boardOfGivens sampleDigits) oneBlank_run).2⟩

/-- C3, as the code has it: for a 9x9 grid of givens that agrees with some valid
completed Sudoku `S`, whatever `Solve` returns has no digit twice in any row, column
or 3x3 box. -/
theorem Solve_no_repeated_digit (b : SudokuBoard) (S : Nat → Nat → Int) (hb : Is9x9 b)
    (_hgivens : ∀ c ∈ b.cells, c = empty_square ∨ c.length = 1)
    (hS : ValidSolution S)
    (hagree : ∀ r, r < 9 → ∀ c, c < 9 → S r c ∈ cellAt b.cells (r * 9 + c))
    (fuel : Nat) (b' : SudokuBoard) (hrun : Solve fuel b = .ok b') :
    NoRepeatedDigit b'.cells := by
  obtain ⟨cs, rfl, _, hcells⟩ := Solve_agrees hS b hb.1 ⟨hb.2, hagree⟩ fuel b' hrun
  exact noRepeatedDigit_of_solution hS hcells

/-- Witness of C3 as amended: the puzzle `oneBlankGivens`. -/
theorem Solve_no_repeated_digit_witness :
    Is9x9 (boardOfGivens oneBlankGivens) ∧
    ValidSolution (gridOf sampleDigits) ∧
    Solve 1 (boardOfGivens oneBlankGivens) = .ok (boardOfGivens sampleDigits) ∧
    NoRepeatedDigit (boardOfGivens sampleDigits).cells :=
  ⟨by decide, by decide, oneBlank_run,
    Solve_no_repeated_digit (boardOfGivens oneBlankGivens) (gridOf sampleDigits) (by decide)
      (by decide) (by decide) (by decide) 1 (boardOfGivens sampleDigits) oneBlank_run⟩

/-- Counterexample to C3 as stated: the givens `overGivens` repeat no digit in any
row, column or box, and `Solve` returns after one sweep with a grid that has 9 twice
in column 8 and 1 twice in column 7. -/
theorem Solve_returns_repeated_digit :
    Is9x9 (boardOfGivens overGivens) ∧
    (∀ c ∈ (boardOfGivens overGivens).cells, c = empty_square ∨ c.length = 1) ∧
    NoRepeatedDigit (boardOfGivens overGivens).cells ∧
    Solve 1 (boardOfGivens overGivens) = .ok (boardOfGivens overResult) ∧
    ¬ NoRepeatedDigit (boardOfGivens overResult).cells ∧
    cellAt (boardOfGivens overResult).cells (0 * 9 + 8) = [9] ∧
    cellAt (boardOfGivens overResult).cells (3 * 9 + 8) = [9] :=
  ⟨by decide, by decide, by decide, over_run, by decide, by decide, by decide⟩

/-- C4: on a 9x9 grid in which every cell's candidate list is non-empty and free of
repeated digits, `crossVertical`, `crossHorizontal` and `crossBox` with any value, and
any number of full sweeps, return a grid in which every cell's candidate list is
still non-empty. -/
theorem candidates_stay_nonempty (b : SudokuBoard) (hb : Is9x9 b)
    (hgood : ∀ c ∈ b.cells, c ≠ [] ∧ c.Nodup)
    (offsetH offsetW : Nat) (hH : offsetH < 9) (hW : offsetW < 9) (value : Int) :
    (∃ b1, b.crossVertical offsetW value = .ok b1 ∧ ∀ c ∈ b1.cells, c ≠ []) ∧
    (∃ b2, b.crossHorizontal offsetH value = .ok b2 ∧ ∀ c ∈ b2.cells, c ≠ []) ∧
    (∃ b3, b.crossBox offsetH offsetW value = .ok b3 ∧ ∀ c ∈ b3.cells, c ≠ []) ∧
    ∀ n, ∃ bn, sweeps n b = .ok bn ∧ ∀ c ∈ bn.cells, c ≠ [] := by
  refine ⟨⟨_, crossVertical_eq b hb offsetW hW value, ?_⟩,
    ⟨_, crossHorizontal_eq b hb offsetH hH value, ?_⟩,
    ⟨_, crossBox_eq b hb offsetH offsetW hH hW value, ?_⟩, ?_⟩
  · exact fun c hc => (elimIn_good hgood _ _ c hc).1
  · exact fun c hc => (elimIn_good hgood _ _ c hc).1
  · exact fun c hc => (elimIn_good hgood _ _ c hc).1
  · intro n
    obtain ⟨cs, hrun, _, hcs⟩ := sweeps_total
      (fun cells => cells.length = 81 ∧ ∀ c ∈ cells, c ≠ [] ∧ c.Nodup)
      (fun _ h => h.1)
      (fun _ h => getElem?_ne_nil_of_good h.2)
      (fun y x cells _ _ h => ⟨by rw [visit_length]; exact h.1, visit_good h.2 y x⟩)
      n b hb.1 ⟨hb.2, hgood⟩
    exact ⟨_, hrun, fun c hc => (hcs c hc).1⟩

/-- Witness of C4: the puzzle `twoSweepGivens`, column 4, row 2, value 7. -/
theorem candidates_stay_nonempty_witness :
    Is9x9 (boardOfGivens twoSweepGivens) ∧
    (∀ c ∈ (boardOfGivens twoSweepGivens).cells, c ≠ [] ∧ c.Nodup) ∧
    ((∃ b1, (boardOfGivens twoSweepGivens).crossVertical 4 7 = .ok b1 ∧ ∀ c ∈ b1.cells, c ≠ []) ∧
    (∃ b2, (boardOfGivens twoSweepGivens).crossHorizontal 2 7 = .ok b2 ∧
      ∀ c ∈ b2.cells, c ≠ []) ∧
    (∃ b3, (boardOfGivens twoSweepGivens).crossBox 2 4 7 = .ok b3 ∧ ∀ c ∈ b3.cells, c ≠ []) ∧
    ∀ n, ∃ bn, sweeps n (boardOfGivens twoSweepGivens) = .ok bn ∧ ∀ c ∈ bn.cells, c ≠ []) :=
  ⟨by decide, by decide,
    candidates_stay_nonempty (boardOfGivens twoSweepGivens) (by decide) (by decide) 2 4
      (by decide) (by decide) 7⟩

/-- C5: on a 9x9 grid, a cell whose candidate list has exactly one member is the same
after `crossVertical`, `crossHorizontal` and `crossBox` with any value (the member
itself included), and in whatever any number of full sweeps return. -/
theorem resolved_cell_unchanged (b : SudokuBoard) (hb : Is9x9 b) (j : Nat) (_hj : j < 81)
    (hone : (cellAt b.cells j).length = 1)
    (offsetH offsetW : Nat) (hH : offsetH < 9) (hW : offsetW < 9) (value : Int) :
    (∃ b1, b.crossVertical offsetW value = .ok b1 ∧ cellAt b1.cells j = cellAt b.cells j) ∧
    (∃ b2, b.crossHorizontal offsetH value = .ok b2 ∧ cellAt b2.cells j = cellAt b.cells j) ∧
    (∃ b3, b.crossBox offsetH offsetW value = .ok b3 ∧
      cellAt b3.cells j = cellAt b.cells j) ∧
    ∀ n bn, sweeps n b = .ok bn → cellAt bn.cells j = cellAt b.cells j := by
  refine ⟨⟨_, crossVertical_eq b hb offsetW hW value, ?_⟩,
    ⟨_, crossHorizontal_eq b hb offsetH hH value, ?_⟩,
    ⟨_, crossBox_eq b hb offsetH offsetW hH hW value, ?_⟩, ?_⟩
  · exact cellAt_elimIn_short _ _ _ _ (by omega)
  · exact cellAt_elimIn_short _ _ _ _ (by omega)
  · exact cellAt_elimIn_short _ _ _ _ (by omega)
  · intro n bn hrun
    obtain ⟨cs, rfl, _, hcs⟩ := sweeps_partial
      (fun cells => cells.length = 81 ∧ cellAt cells j = cellAt b.cells j)
      (fun _ h => h.1)
      (fun y x cells _ _ h =>
        ⟨by rw [visit_length]; exact h.1,
          by rw [cellAt_visit_short y x cells j (by rw [h.2]; omega)]; exact h.2⟩)
      n b hb.1 ⟨hb.2, rfl⟩ bn hrun
    exact hcs

/-- Witness of C5: two givens `5` side by side in row 0; the second one survives the
elimination of its own value 5 from row 0, column 1 and the first box. -/
theorem resolved_cell_unchanged_witness :
    Is9x9 (boardOfGivens twinGivens) ∧ cellAt (boardOfGivens twinGivens).cells 0 = [5] ∧
    cellAt (boardOfGivens twinGivens).cells 1 = [5] ∧
    ((∃ b1, (boardOfGivens twinGivens).crossVertical 1 5 = .ok b1 ∧
      cellAt b1.cells 1 = cellAt (boardOfGivens twinGivens).cells 1) ∧
    (∃ b2, (boardOfGivens twinGivens).crossHorizontal 0 5 = .ok b2 ∧
      cellAt b2.cells 1 = cellAt (boardOfGivens twinGivens).cells 1) ∧
    (∃ b3, (boardOfGivens twinGivens).crossBox 0 1 5 = .ok b3 ∧
      cellAt b3.cells 1 = cellAt (boardOfGivens twinGivens).cells 1) ∧
    ∀ n bn, sweeps n (boardOfGivens twinGivens) = .ok bn →
      cellAt bn.cells 1 = cellAt (boardOfGivens twinGivens).cells 1) :=
  ⟨by decide, by decide, by decide,
    resolved_cell_unchanged (boardOfGivens twinGivens) (by decide) 1 (by decide) (by decide)
      0 1 (by decide) (by decide) 5⟩

/-- C6: on a 9x9 grid with non-empty cells, in whatever a full sweep returns each
cell's candidate list is a sub-list of its list before the sweep, so the number of
candidates summed over all cells has not increased; and the sweep does return when no
cell repeats a digit. -/
theorem sweep_only_removes (b : SudokuBoard) (hb : Is9x9 b) (hne : ∀ c ∈ b.cells, c ≠ []) :
    (∀ b', b.sweep = .ok b' →
      (∀ j, j < 81 → (cellAt b'.cells j).Sublist (cellAt b.cells j)) ∧
      totalCandidates b'.cells ≤ totalCandidates b.cells) ∧
    ((∀ c ∈ b.cells, c.Nodup) → ∃ b', b.sweep = .ok b') := by
  constructor
  · intro b' hrun
    obtain ⟨cs, rfl, hlen, hcs⟩ := sweep_partial
      (fun _ cells => cells.length = 81 ∧ ∀ j, (cellAt cells j).Sublist (cellAt b.cells j))
      (fun _ _ h => h.1)
      (fun y x cells _ _ h =>
        ⟨by rw [visit_length]; exact h.1,
          fun j => (cellAt_visit_sublist y x cells j).trans (h.2 j)⟩)
      b hb.1 ⟨hb.2, fun _ => List.Sublist.refl _⟩ b' hrun
    refine ⟨fun j _ => hcs j, ?_⟩
    exact totalCandidates_le (by rw [withCells_cells, hlen, hb.2])
      (fun j _ => (hcs j).length_le)
  · intro hnd
    obtain ⟨cs, hrun, _⟩ := sweep_total
      (fun _ cells => cells.length = 81 ∧ ∀ c ∈ cells, c ≠ [] ∧ c.Nodup)
      (fun _ _ h => h.1)
      (fun _ _ _ h => getElem?_ne_nil_of_good h.2)
      (fun y x cells _ _ h => ⟨by rw [visit_length]; exact h.1, visit_good h.2 y x⟩)
      b hb.1 ⟨hb.2, fun c hc => ⟨hne c hc, hnd c hc⟩⟩
    exact ⟨_, hrun⟩

/-- Witness of C6: the puzzle `twoSweepGivens`. -/
theorem sweep_only_removes_witness :
    Is9x9 (boardOfGivens twoSweepGivens) ∧
    (∀ c ∈ (boardOfGivens twoSweepGivens).cells, c ≠ []) ∧
    ((∀ b', (boardOfGivens twoSweepGivens).sweep = .ok b' →
      (∀ j, j < 81 →
        (cellAt b'.cells j).Sublist (cellAt (boardOfGivens twoSweepGivens).cells j)) ∧
      totalCandidates b'.cells ≤ totalCandidates (boardOfGivens twoSweepGivens).cells) ∧
    ((∀ c ∈ (boardOfGivens twoSweepGivens).cells, c.Nodup) →
      ∃ b', (boardOfGivens twoSweepGivens).sweep = .ok b')) :=
  ⟨by decide, by decide, sweep_only_removes (boardOfGivens twoSweepGivens) (by decide) (by decide)⟩

/-- C7: on a 9x9 grid in which every cell holds exactly one candidate, one more full
sweep returns the same grid: no candidate is removed. -/
theorem sweep_of_resolved (b : SudokuBoard) (hb : Is9x9 b)
    (hall : ∀ c ∈ b.cells, c.length = 1) : b.sweep = .ok b := by
  obtain ⟨cs, hrun, hcs⟩ := sweep_total (fun _ cells => cells = b.cells)
    (fun _ _ h => by rw [h]; exact hb.2)
    (fun _ cells _ h i hi => by
      rw [h] at hi
      have := hall _ (List.getElem?_mem hi)
      simp at this)
    (fun y x cells _ _ h => by rw [h]; exact visit_of_singletons hall y x)
    b hb.1 rfl
  rw [hrun, hcs]
  rfl

/-- Witness of C7: the completed grid `overResult` that `Solve` returned. -/
theorem sweep_of_resolved_witness :
    Is9x9 (boardOfGivens overResult) ∧
    (∀ c ∈ (boardOfGivens overResult).cells, c.length = 1) ∧
    (boardOfGivens overResult).sweep = .ok (boardOfGivens overResult) :=
  ⟨by decide, by decide, sweep_of_resolved (boardOfGivens overResult) (by decide) (by decide)⟩

/-- C8: for a valid completed Sudoku `S` and blank cells chosen with exactly one in
each row, each column and each 3x3 box, on the 9x9 grid that holds 1..9 in the blank
cells and the digit of `S` elsewhere one full sweep resolves every cell to the digit
of `S`, and `Solve` returns that grid after this single sweep. -/
theorem Solve_one_blank_each (S : Nat → Nat → Int) (hS : ValidSolution S)
    (blank : Nat → Nat → Bool)
    (hrow : ∀ r, r < 9 → ((List.range 9).filter (fun c => blank r c)).length = 1)
    (_hcol : ∀ c, c < 9 → ((List.range 9).filter (fun r => blank r c)).length = 1)
    (_hbox : ∀ k, k < 9 → ((List.range 9).filter
      (fun i => blank (3 * (k / 3) + i / 3) (3 * (k % 3) + i % 3))).length = 1)
    (b : SudokuBoard) (hb : Is9x9 b)
    (hcells : ∀ r, r < 9 → ∀ c, c < 9 →
      cellAt b.cells (r * 9 + c) = if blank r c then empty_square else [S r c]) :
    ∃ b', b.sweep = .ok b' ∧ Is9x9 b' ∧
      (∀ r, r < 9 → ∀ c, c < 9 → cellAt b'.cells (r * 9 + c) = [S r c]) ∧
      ∀ fuel, Solve (fuel + 1) b = .ok b' := by
  obtain ⟨cs, hrun, hlen, hcs⟩ := sweep_one_blank hS blank hrow b hb hcells
  have h9 : Is9x9 (b.withCells cs) := hb.withCells hlen
  refine ⟨_, hrun, h9, hcs, fun fuel => Solve_of_sweep_solved fuel b _ hrun ?_⟩
  rw [isSolved_eq _ h9]
  congr 1
  rw [decide_eq_true_iff]
  intro j hj
  have := hcs (j / 9) (by omega) (j % 9) (by omega)
  rw [Nat.div_add_mod' j 9] at this
  rw [withCells_cells, this]
  simp

/-- Witness of C8: `sampleDigits` with the nine cells of `diagonalBlanks` left blank. -/
theorem Solve_one_blank_each_witness :
    ValidSolution (gridOf sampleDigits) ∧
    (∀ r, r < 9 → ((List.range 9).filter (fun c => diagonalBlanks r c)).length = 1) ∧
    (∀ c, c < 9 → ((List.range 9).filter (fun r => diagonalBlanks r c)).length = 1) ∧
    (∀ k, k < 9 → ((List.range 9).filter
      (fun i => diagonalBlanks (3 * (k / 3) + i / 3) (3 * (k % 3) + i % 3))).length = 1) ∧
    ∃ b', (boardOfGivens oneBlankGivens).sweep = .ok b' ∧ Is9x9 b' ∧
      (∀ r, r < 9 → ∀ c, c < 9 → cellAt b'.cells (r * 9 + c) = [gridOf sampleDigits r c]) ∧
      ∀ fuel, Solve (fuel + 1) (boardOfGivens oneBlankGivens) = .ok b' :=
  ⟨by decide, by decide, by decide, by decide,
    Solve_one_blank_each (gridOf sampleDigits) (by decide) diagonalBlanks (by decide)
      (by decide) (by decide) (boardOfGivens oneBlankGivens) (by decide) (by decide)⟩

/-- C9: for a 9x9 grid in which every cell holds exactly one digit in 1..9, the output
operator writes a text, and parsing that text into any 9x9 grid yields the original
grid cell for cell. -/
theorem write_read_round_trip (b : SudokuBoard) (hb : Is9x9 b)
    (hdigits : ∀ c ∈ b.cells, c.length = 1 ∧ ∀ d ∈ c, 1 ≤ d ∧ d ≤ 9)
    (target : SudokuBoard) (ht : Is9x9 target) :
    ∃ text b', write b = .ok text ∧ read text target = .ok b' ∧ Is9x9 b' ∧
      b'.cells = b.cells := by
  obtain ⟨hw, hr⟩ := read_write b hb hdigits target ht
  exact ⟨_, _, hw, hr, ht.withCells hb.2, rfl⟩

/-- Witness of C9: the completed grid `sampleDigits`, written as `sampleText` and read
back into a freshly constructed board of side 9. -/
theorem write_read_round_trip_witness :
    Is9x9 (boardOfGivens sampleDigits) ∧
    (∀ c ∈ (boardOfGivens sampleDigits).cells, c.length = 1 ∧ ∀ d ∈ c, 1 ≤ d ∧ d ≤ 9) ∧
    Is9x9 (SudokuBoard.new 9) ∧
    write (boardOfGivens sampleDigits) = .ok sampleText ∧
    ∃ text b', write (boardOfGivens sampleDigits) = .ok text ∧
      read text (SudokuBoard.new 9) = .ok b' ∧ Is9x9 b' ∧
      b'.cells = (boardOfGivens sampleDigits).cells :=
  ⟨by decide, by decide, by decide, by decide,
    write_read_round_trip (boardOfGivens sampleDigits) (by decide) (by decide)
      (SudokuBoard.new 9) (by decide)⟩

/-- C10: for a text whose lines, once every '|', '-' and '+' is deleted, are empty or
one of exactly 9 lines of exactly 9 characters drawn from ' ' and '1'..'9', parsing
into a 9x9 grid sets cell `(r, c)` from character `c` of the `r`-th non-empty stripped
line: to the full list 1..9 for a space and to the single digit `d` for the digit `d`.
Lines that are empty after stripping are not counted as rows. -/
theorem read_positional (source : List Char) (target : SudokuBoard) (ht : Is9x9 target)
    (hrows : (contentOf (getlines source)).length = 9)
    (hshape : ∀ l ∈ contentOf (getlines source),
      l.length = 9 ∧ ∀ ch ∈ l, ch = ' ' ∨ ch ∈ "123456789".toList) :
    ∃ b', read source target = .ok b' ∧ Is9x9 b' ∧
      ∀ r, r < 9 → ∀ c, c < 9 →
        (charAt (rowAt (contentOf (getlines source)) r) c = ' ' →
          cellAt b'.cells (r * 9 + c) = empty_square) ∧
        (∀ d : Nat, 1 ≤ d → d ≤ 9 →
          charAt (rowAt (contentOf (getlines source)) r) c = Char.ofNat (48 + d) →
          cellAt b'.cells (r * 9 + c) = [(d : Int)]) := by
  obtain ⟨cs, hrun, hlen, hcs⟩ := read_eq source target ht hrows (fun l hl => (hshape l hl).1)
  refine ⟨_, hrun, ht.withCells hlen, fun r hr c hc => ⟨?_, ?_⟩⟩
  · intro hsp
    rw [withCells_cells, hcs r hr c hc, hsp]
    rfl
  · intro d h1 h9 hch
    rw [withCells_cells, hcs r hr c hc, hch]
    have hd := (digitChar_plain (d := (d : Int)) (by omega) (by omega)).2.2
    simpa [digitChar] using hd

/-- Witness of C10: the framed text of the puzzle `twoSweepGivens`, read into a
freshly constructed board of side 9. -/
theorem read_positional_witness :
    Is9x9 (SudokuBoard.new 9) ∧
    (contentOf (getlines framedText)).length = 9 ∧
    (∀ l ∈ contentOf (getlines framedText),
      l.length = 9 ∧ ∀ ch ∈ l, ch = ' ' ∨ ch ∈ "123456789".toList) ∧
    read framedText blankBoard = .ok (boardOfGivens twoSweepGivens) ∧
    ∃ b', read framedText (SudokuBoard.new 9) = .ok b' ∧ Is9x9 b' ∧
      ∀ r, r < 9 → ∀ c, c < 9 →
        (charAt (rowAt (contentOf (getlines framedText)) r) c = ' ' →
          cellAt b'.cells (r * 9 + c) = empty_square) ∧
        (∀ d : Nat, 1 ≤ d → d ≤ 9 →
          charAt (rowAt (contentOf (getlines framedText)) r) c = Char.ofNat (48 + d) →
          cellAt b'.cells (r * 9 + c) = [(d : Int)]) :=
  ⟨by decide, by decide, by decide, by decide,
    read_positional framedText (SudokuBoard.new 9) (by decide) (by decide) (by decide)⟩

/-- C11: for a 9x9 grid with non-empty cells the output operator writes 11 lines,
each ended by a newline: every grid row as its 9 cells in column order (the value of a
cell with one candidate, a single space otherwise) with a `|` after columns 3 and 6
only, and the line `---+---+---` after rows 3 and 6 only. -/
theorem write_eleven_lines (b : SudokuBoard) (hb : Is9x9 b) (hne : ∀ c ∈ b.cells, c ≠ []) :
    ∃ text, write b = .ok text ∧
      text = (formatLines b.cells).flatMap (fun l => l ++ ['\n']) ∧
      getlines text = formatLines b.cells ∧
      (getlines text).length = 11 := by
  have hlines : getlines ((formatLines b.cells).flatMap (fun l => l ++ ['\n']))
      = formatLines b.cells := by
    apply getlines_flatMap
    intro l hl
    simp only [formatLines, List.mem_cons, List.mem_singleton, List.not_mem_nil, or_false] at hl
    rcases hl with h | h | h | h | h | h | h | h | h | h | h <;> rw [h] <;>
      first
        | exact formatRow_no_newline _ _
        | decide
  refine ⟨_, write_format b hb hne, rfl, hlines, ?_⟩
  rw [hlines]
  rfl

/-- Witness of C11: the puzzle `twoSweepGivens`, written as its eleven lines. -/
theorem write_eleven_lines_witness :
    Is9x9 (boardOfGivens twoSweepGivens) ∧
    (∀ c ∈ (boardOfGivens twoSweepGivens).cells, c ≠ []) ∧
    write (boardOfGivens twoSweepGivens) = .ok
      (" 23|4  |   \n4 6|7 9|  3\n 8 |123|45 \n---+---+---\n" ++
       " 34|5 7| 91\n567|8  |2  \n  1|  4| 67\n---+---+---\n" ++
       " 45|6  |  2\n67 |9  |345\n91 |3  | 7 \n").toList ∧
    ∃ text, write (boardOfGivens twoSweepGivens) = .ok text ∧
      text = (formatLines (boardOfGivens twoSweepGivens).cells).flatMap (fun l => l ++ ['\n']) ∧
      getlines text = formatLines (boardOfGivens twoSweepGivens).cells ∧
      (getlines text).length = 11 :=
  ⟨by decide, by decide, by decide,
    write_eleven_lines (boardOfGivens twoSweepGivens) (by decide) (by decide)⟩

/-- C12, as the code has it: the constructor allocates the cells without candidates.
The grid built for size `s` has `s * s` cells (the product taken in 32-bit unsigned
arithmetic), 81 for size 9, and the candidate list of every cell is empty. -/
theorem new_has_empty_cells (s : Nat) :
    (SudokuBoard.new s).board_size = s ∧
    (SudokuBoard.new s).cells.length = (s * s) % 2 ^ 32 ∧
    (∀ c ∈ (SudokuBoard.new s).cells, c = []) ∧
    (SudokuBoard.new 9).cells.length = 81 := by
  refine ⟨rfl, ?_, ?_, by decide⟩
  · rw [new_cells, List.length_replicate]
  · intro c hc
    rw [new_cells] at hc
    exact List.eq_of_mem_replicate hc

/-- Counterexample to C12 as stated: the grid built for size 9 has 81 cells, none of
which holds the list 1..9; written as it is, it does not render as blanks: the output
operator reads element `[0]` of an empty cell. -/
theorem new_nine_not_full :
    (SudokuBoard.new 9).cells.length = 81 ∧
    (∀ c ∈ (SudokuBoard.new 9).cells, c ≠ empty_square) ∧
    cellAt (SudokuBoard.new 9).cells 0 = [] ∧
    write (SudokuBoard.new 9) = .error .empty_subscript := by
  refine ⟨by decide, by decide, by decide, by decide⟩

/-- C13, as the code has it: on a 9x9 grid `isSolved` returns, and it returns true if
and only if every cell has at most one candidate; the per-cell test `!isCellEmpty(r, c)`
is true if and only if the size of the list is at most 1, so an empty cell passes it.
On a grid without empty cells `isSolved` returns true if and only if every cell has
exactly one candidate. -/
theorem isSolved_iff_at_most_one (b : SudokuBoard) (hb : Is9x9 b) :
    (∃ s, b.isSolved = .ok s) ∧
    (b.isSolved = .ok true ↔ ∀ r, r < 9 → ∀ c, c < 9 → (cellAt b.cells (r * 9 + c)).length ≤ 1) ∧
    (∀ r, r < 9 → ∀ c, c < 9 →
      b.isCellEmpty r c = .ok (decide ((cellAt b.cells (r * 9 + c)).length > 1))) ∧
    ((∀ cell ∈ b.cells, cell ≠ []) →
      (b.isSolved = .ok true ↔
        ∀ r, r < 9 → ∀ c, c < 9 → (cellAt b.cells (r * 9 + c)).length = 1)) := by
  have hiff : b.isSolved = .ok true ↔
      ∀ r, r < 9 → ∀ c, c < 9 → (cellAt b.cells (r * 9 + c)).length ≤ 1 := by
    rw [isSolved_eq b hb]
    constructor
    · intro h r hr c hc
      have hall : AllResolved b.cells := by simpa using h
      exact hall _ (by omega)
    · intro h
      congr 1
      rw [decide_eq_true_iff]
      intro j hj
      have := h (j / 9) (by omega) (j % 9) (by omega)
      rwa [Nat.div_add_mod' j 9] at this
  refine ⟨⟨_, isSolved_eq b hb⟩, hiff, fun r hr c hc => isCellEmpty_eq b hb r c hr hc, ?_⟩
  intro hne
  rw [hiff]
  constructor
  · intro h r hr c hc
    have h1 := h r hr c hc
    have hmem := cellAt_mem (show r * 9 + c < b.cells.length by rw [hb.2]; omega)
    have h2 : (cellAt b.cells (r * 9 + c)).length ≠ 0 := by
      intro h0
      exact hne _ hmem (List.length_eq_zero.mp h0)
    omega
  · intro h r hr c hc
    have := h r hr c hc
    omega

/-- Witness of C13 as amended: the puzzle `twoSweepGivens`, which has blank cells and
no empty cell. -/
theorem isSolved_iff_at_most_one_witness :
    Is9x9 (boardOfGivens twoSweepGivens) ∧
    (boardOfGivens twoSweepGivens).isSolved = .ok false ∧
    ((∃ s, (boardOfGivens twoSweepGivens).isSolved = .ok s) ∧
    ((boardOfGivens twoSweepGivens).isSolved = .ok true ↔
      ∀ r, r < 9 → ∀ c, c < 9 →
        (cellAt (boardOfGivens twoSweepGivens).cells (r * 9 + c)).length ≤ 1) ∧
    (∀ r, r < 9 → ∀ c, c < 9 →
      (boardOfGivens twoSweepGivens).isCellEmpty r c
        = .ok (decide ((cellAt (boardOfGivens twoSweepGivens).cells (r * 9 + c)).length > 1))) ∧
    ((∀ cell ∈ (boardOfGivens twoSweepGivens).cells, cell ≠ []) →
      ((boardOfGivens twoSweepGivens).isSolved = .ok true ↔
        ∀ r, r < 9 → ∀ c, c < 9 →
          (cellAt (boardOfGivens twoSweepGivens).cells (r * 9 + c)).length = 1))) :=
  ⟨by decide, by decide, isSolved_iff_at_most_one (boardOfGivens twoSweepGivens) (by decide)⟩

/-- Counterexample to C13 as stated: on the grid the constructor builds for size 9
no cell has exactly one candidate, yet `isSolved` returns true, and the resolved test
`!isCellEmpty(0, 0)` is true for a list of size 0. -/
theorem isSolved_true_on_empty_cells :
    Is9x9 (SudokuBoard.new 9) ∧
    (∀ c ∈ (SudokuBoard.new 9).cells, c.length ≠ 1) ∧
    (SudokuBoard.new 9).isSolved = .ok true ∧
    (cellAt (SudokuBoard.new 9).cells (0 * 9 + 0)).length = 0 ∧
    (SudokuBoard.new 9).isCellEmpty 0 0 = .ok false := by
  refine ⟨by decide, by decide, by decide, by decide, by decide⟩

/-- C14, as the code has it: `operator>>` checks only the linear index of the cell it
stores. For a text of bytes, reading into a 9x9 grid succeeds when every content line,
the `r`-th of them (from 0) having `n` characters, satisfies `r * 9 + n ≤ 81`, and fails
with an out-of-range error otherwise. When it succeeds, character `i` of content line
`r` has been stored at index `r * 9 + i`, also for `i ≥ 9`, where it lands in a
following row, and each cell holds what was stored in it last: 1..9 for a space and,
for any other character `c`, the one-element list `[c - '0']` whatever its value, `c`
being read as a signed 8-bit `char` (a byte of 128 or more counts as that byte minus
256). -/
theorem read_checks_linear_index (source : List Char)
    (_hbytes : ∀ c ∈ source, c.toNat < 256)
    (target : SudokuBoard) (ht : Is9x9 target) :
    (fits 0 (contentOf (getlines source)) = true →
      ∃ b', read source target = .ok b' ∧ Is9x9 b' ∧
        ∀ j, j < 81 → cellAt b'.cells j =
          match lastWritten 0 (contentOf (getlines source)) j with
          | some c =>
            if c = ' ' then empty_square
            else [(if c.toNat < 128 then (c.toNat : Int) else (c.toNat : Int) - 256) - 48]
          | none => cellAt target.cells j) ∧
    (fits 0 (contentOf (getlines source)) = false →
      read source target = .error .out_of_range) := by
  constructor
  · intro hfit
    obtain ⟨cs, hrun, hlen, hcs⟩ := readLines_written (getlines source) 0 target ht hfit
    refine ⟨target.withCells cs, ?_, ht.withCells hlen, fun j _ => ?_⟩
    · unfold read
      have e : ((-1 : Int), target) = (((0 : Nat) : Int) - 1, target) := by simp
      rw [e, hrun]
      rfl
    · rw [withCells_cells, hcs j]
      cases lastWritten 0 (contentOf (getlines source)) j with
      | some c => exact cellOfChar_eq c
      | none => rfl
  · intro hfit
    unfold read
    have e : ((-1 : Int), target) = (((0 : Nat) : Int) - 1, target) := by simp
    rw [e, readLines_fail (getlines source) 0 target ht hfit]
    rfl

/-- Witness of C14 as amended: into the grid built for size 9, the one-line text
`longLineText` is read without error, and the text `tenLinesText`, whose tenth line
would go to index 81, is refused. The text `highByteText`, whose only character is
the byte 0xE9, is read without error and stores the value -71 in cell (0,0). -/
theorem read_checks_linear_index_witness :
    Is9x9 (SudokuBoard.new 9) ∧
    (∀ c ∈ longLineText, c.toNat < 256) ∧
    fits 0 (contentOf (getlines longLineText)) = true ∧
    (∃ b', read longLineText (SudokuBoard.new 9) = .ok b' ∧ Is9x9 b' ∧
      ∀ j, j < 81 → cellAt b'.cells j =
        match lastWritten 0 (contentOf (getlines longLineText)) j with
        | some c =>
          if c = ' ' then empty_square
          else [(if c.toNat < 128 then (c.toNat : Int) else (c.toNat : Int) - 256) - 48]
        | none => cellAt (SudokuBoard.new 9).cells j) ∧
    (∀ c ∈ tenLinesText, c.toNat < 256) ∧
    fits 0 (contentOf (getlines tenLinesText)) = false ∧
    read tenLinesText (SudokuBoard.new 9) = .error .out_of_range ∧
    (∀ c ∈ highByteText, c.toNat < 256) ∧
    (read highByteText (SudokuBoard.new 9)).map (fun b' => cellAt b'.cells (0 * 9 + 0))
      = .ok [-71] :=
  ⟨by decide, by decide, by decide,
    (read_checks_linear_index longLineText (by decide) (SudokuBoard.new 9) (by decide)).1
      (by decide),
    by decide, by decide,
    (read_checks_linear_index tenLinesText (by decide) (SudokuBoard.new 9) (by decide)).2
      (by decide),
    by decide, by decide⟩

/-- Counterexample to C14 as stated: the only content line of `longLineText`, a text
of ASCII characters, has eleven characters, among them `0` and `a`; parsing it into the
grid built for size 9 raises no error and stores the value 0 in cell (1,0) and the
value 49 in cell (1,1), cells of the row after the one the line belongs to. -/
theorem read_accepts_long_line :
    (∀ c ∈ longLineText, c.toNat < 128) ∧
    contentOf (getlines longLineText) = ["1234567890a".toList] ∧
    (read longLineText (SudokuBoard.new 9)).map
        (fun b' => (cellAt b'.cells (0 * 9 + 8), cellAt b'.cells (1 * 9 + 0),
          cellAt b'.cells (1 * 9 + 1)))
      = .ok ([9], [0], [49]) := by
  refine ⟨by decide, by decide, by decide⟩

/-- C15, as the code has it: construction does not fail for a side length that is not a
perfect square. For every `N` that is not `k * k`, the constructor builds a grid with
`board_size = N`, `N * N` cells (the product taken in 32-bit unsigned arithmetic) and
`square_size` the integer square root of `N`, whose square is below `N`. -/
theorem new_of_non_square (N : Nat) (hN : ¬ ∃ k : Nat, k * k = N) :
    (SudokuBoard.new N).board_size = N ∧
    (SudokuBoard.new N).cells.length = (N * N) % 2 ^ 32 ∧
    (SudokuBoard.new N).square_size * (SudokuBoard.new N).square_size < N ∧
    N < ((SudokuBoard.new N).square_size + 1) * ((SudokuBoard.new N).square_size + 1) := by
  obtain ⟨h1, h2⟩ := new_square_size N
  refine ⟨rfl, ?_, ?_, h2⟩
  · rw [new_cells, List.length_replicate]
  · rcases Nat.lt_or_ge ((SudokuBoard.new N).square_size * (SudokuBoard.new N).square_size) N
      with h | h
    · exact h
    · exact absurd ⟨_, Nat.le_antisymm h1 h⟩ hN

/-- Witness of C15 as amended: size 8. -/
theorem new_of_non_square_witness :
    (¬ ∃ k : Nat, k * k = 8) ∧
    ((SudokuBoard.new 8).board_size = 8 ∧
    (SudokuBoard.new 8).cells.length = (8 * 8) % 2 ^ 32 ∧
    (SudokuBoard.new 8).square_size * (SudokuBoard.new 8).square_size < 8 ∧
    8 < ((SudokuBoard.new 8).square_size + 1) * ((SudokuBoard.new 8).square_size + 1)) :=
  ⟨eight_not_square, new_of_non_square 8 eight_not_square⟩

/-- Counterexample to C15 as stated: 8 is not a perfect square, and the constructor
builds for it a grid of 64 empty cells with `board_size = 8` and `square_size = 2`. -/
theorem new_eight_is_built :
    (¬ ∃ k : Nat, k * k = 8) ∧
    SudokuBoard.new 8 = { cells := List.replicate 64 [], board_size := 8, square_size := 2 } :=
  ⟨eight_not_square, new_eight⟩

/-- C16: on a 9x9 grid with non-empty, duplicate-free cells and a cell `(r, c)`
resolved to `v`, the calls `crossVertical(c, v)`, `crossHorizontal(r, v)` and
`crossBox(r, c, v)` in turn (i) leave in every cell that had more than one candidate
and lies in row `r`, in column `c` or in the 3x3 box with top-left corner
`(3*(r/3), 3*(c/3))` exactly its candidates other than `v`, in their order, and
(ii) leave every cell outside that row, column and box unchanged. -/
theorem propagate_resolved_cell (b : SudokuBoard) (hb : Is9x9 b)
    (_hgood : ∀ cell ∈ b.cells, cell ≠ [] ∧ cell.Nodup)
    (r c : Nat) (hr : r < 9) (hc : c < 9) (v : Int)
    (_hcell : cellAt b.cells (r * 9 + c) = [v]) :
    ∃ b1 b2 b3, b.crossVertical c v = .ok b1 ∧ b1.crossHorizontal r v = .ok b2 ∧
      b2.crossBox r c v = .ok b3 ∧ Is9x9 b3 ∧
      ∀ y, y < 9 → ∀ x, x < 9 →
        ((y = r ∨ x = c ∨ (3 * (r / 3) ≤ y ∧ y < 3 * (r / 3) + 3 ∧
            3 * (c / 3) ≤ x ∧ x < 3 * (c / 3) + 3)) →
          (cellAt b.cells (y * 9 + x)).length > 1 →
          cellAt b3.cells (y * 9 + x) = (cellAt b.cells (y * 9 + x)).filter (fun d => d != v) ∧
          v ∉ cellAt b3.cells (y * 9 + x) ∧
          ∀ d ∈ cellAt b.cells (y * 9 + x), d ≠ v → d ∈ cellAt b3.cells (y * 9 + x)) ∧
        (¬ (y = r ∨ x = c ∨ (3 * (r / 3) ≤ y ∧ y < 3 * (r / 3) + 3 ∧
            3 * (c / 3) ≤ x ∧ x < 3 * (c / 3) + 3)) →
          cellAt b3.cells (y * 9 + x) = cellAt b.cells (y * 9 + x)) := by
  obtain ⟨h1, h2, h3⟩ := cross_three_eq b hb r c hr hc v
  refine ⟨_, _, _, h1, h2, h3, hb.elimIn _ _, fun y hy x hx => ⟨?_, ?_⟩⟩
  · intro hunit hlen
    have hp := (peers_iff r c y x hy hx).mpr hunit
    have hcell : cellAt (b.withCells (elimIn (peers r c) v b.cells)).cells (y * 9 + x)
        = (cellAt b.cells (y * 9 + x)).filter (fun d => d != v) := by
      rw [withCells_cells, cellAt_elimIn, hp, if_pos rfl]
      unfold elim
      rw [if_pos hlen]
      rfl
    refine ⟨hcell, ?_, ?_⟩
    · rw [hcell]
      simp
    · intro d hd hne
      rw [hcell]
      simp [hd, hne]
  · intro hunit
    have hp : peers r c (y * 9 + x) = false := by
      cases h : peers r c (y * 9 + x) with
      | false => rfl
      | true => exact absurd ((peers_iff r c y x hy hx).mp h) hunit
    rw [withCells_cells, cellAt_elimIn, hp]
    rfl

/-- Witness of C16: the puzzle `twoSweepGivens`, whose cell `(1, 3)` is resolved to
7. -/
theorem propagate_resolved_cell_witness :
    Is9x9 (boardOfGivens twoSweepGivens) ∧
    (∀ cell ∈ (boardOfGivens twoSweepGivens).cells, cell ≠ [] ∧ cell.Nodup) ∧
    cellAt (boardOfGivens twoSweepGivens).cells (1 * 9 + 3) = [7] ∧
    ∃ b1 b2 b3, (boardOfGivens twoSweepGivens).crossVertical 3 7 = .ok b1 ∧
      b1.crossHorizontal 1 7 = .ok b2 ∧ b2.crossBox 1 3 7 = .ok b3 ∧ Is9x9 b3 ∧
      ∀ y, y < 9 → ∀ x, x < 9 →
        ((y = 1 ∨ x = 3 ∨ (3 * (1 / 3) ≤ y ∧ y < 3 * (1 / 3) + 3 ∧
            3 * (3 / 3) ≤ x ∧ x < 3 * (3 / 3) + 3)) →
          (cellAt (boardOfGivens twoSweepGivens).cells (y * 9 + x)).length > 1 →
          cellAt b3.cells (y * 9 + x)
            = (cellAt (boardOfGivens twoSweepGivens).cells (y * 9 + x)).filter
                (fun d => d != 7) ∧
          (7 : Int) ∉ cellAt b3.cells (y * 9 + x) ∧
          ∀ d ∈ cellAt (boardOfGivens twoSweepGivens).cells (y * 9 + x), d ≠ 7 →
            d ∈ cellAt b3.cells (y * 9 + x)) ∧
        (¬ (y = 1 ∨ x = 3 ∨ (3 * (1 / 3) ≤ y ∧ y < 3 * (1 / 3) + 3 ∧
            3 * (3 / 3) ≤ x ∧ x < 3 * (3 / 3) + 3)) →
          cellAt b3.cells (y * 9 + x)
            = cellAt (boardOfGivens twoSweepGivens).cells (y * 9 + x)) :=
  ⟨by decide, by decide, by decide,
    propagate_resolved_cell (boardOfGivens twoSweepGivens) (by decide) (by decide) 1 3
      (by decide) (by decide) 7 (by decide)⟩

/-- C17: on a 9x9 grid that lists, in every cell `(r, c)`, the digit `S r c` of a valid
completed Sudoku `S`, one full sweep and any number of full sweeps return a grid
that still lists `S r c` in every cell `(r, c)`. -/
theorem sweeps_keep_true_digit (b : SudokuBoard) (hb : Is9x9 b) (S : Nat → Nat → Int)
    (hS : ValidSolution S)
    (hagree : ∀ r, r < 9 → ∀ c, c < 9 → S r c ∈ cellAt b.cells (r * 9 + c)) :
    (∃ b1, b.sweep = .ok b1 ∧ Is9x9 b1 ∧
      ∀ r, r < 9 → ∀ c, c < 9 → S r c ∈ cellAt b1.cells (r * 9 + c)) ∧
    ∀ n, ∃ bn, sweeps n b = .ok bn ∧ Is9x9 bn ∧
      ∀ r, r < 9 → ∀ c, c < 9 → S r c ∈ cellAt bn.cells (r * 9 + c) := by
  constructor
  · obtain ⟨cs, hrun, hA⟩ := sweep_total (fun _ => Agrees S) (fun _ _ h => h.1)
      (fun _ _ _ h => h.getElem?_ne_nil) (fun y x _ hy hx h => h.visit hS hy hx)
      b hb.1 ⟨hb.2, hagree⟩
    exact ⟨_, hrun, hb.withCells hA.1, hA.2⟩
  · intro n
    obtain ⟨cs, hrun, hA⟩ := sweeps_total (Agrees S) (fun _ h => h.1)
      (fun _ h => h.getElem?_ne_nil) (fun y x _ hy hx h => h.visit hS hy hx)
      n b hb.1 ⟨hb.2, hagree⟩
    exact ⟨_, hrun, hb.withCells hA.1, hA.2⟩

/-- Witness of C17: the puzzle `twoSweepGivens` and the completed grid `sampleDigits`. -/
theorem sweeps_keep_true_digit_witness :
    Is9x9 (boardOfGivens twoSweepGivens) ∧ ValidSolution (gridOf sampleDigits) ∧
    (∀ r, r < 9 → ∀ c, c < 9 →
      gridOf sampleDigits r c ∈ cellAt (boardOfGivens twoSweepGivens).cells (r * 9 + c)) ∧
    ((∃ b1, (boardOfGivens twoSweepGivens).sweep = .ok b1 ∧ Is9x9 b1 ∧
      ∀ r, r < 9 → ∀ c, c < 9 → gridOf sampleDigits r c ∈ cellAt b1.cells (r * 9 + c)) ∧
    ∀ n, ∃ bn, sweeps n (boardOfGivens twoSweepGivens) = .ok bn ∧ Is9x9 bn ∧
      ∀ r, r < 9 → ∀ c, c < 9 → gridOf sampleDigits r c ∈ cellAt bn.cells (r * 9 + c)) :=
  ⟨by decide, by decide, by decide,
    sweeps_keep_true_digit (boardOfGivens twoSweepGivens) (by decide) (gridOf sampleDigits)
      (by decide) (by decide)⟩

/-- C18, as the code has it: on a grid of exactly 81 cells with board size 9 in which
every cell's candidate list is non-empty and has no repeated digit, a full sweep and
the `isSolved` test, before and after it, complete without a failing access: every
`at` index is below 81 and element `[0]` is read only of non-empty lists.
Non-emptiness is necessary: on a grid that contains an empty cell the sweep reads
element `[0]` of an empty list. -/
theorem sweep_index_safe (b : SudokuBoard) (hb : Is9x9 b) :
    ((∀ c ∈ b.cells, c ≠ [] ∧ c.Nodup) →
      ∃ b', b.sweep = .ok b' ∧ Is9x9 b' ∧ ∃ s, b'.isSolved = .ok s) ∧
    (∃ s, b.isSolved = .ok s) ∧
    ([] ∈ b.cells → b.sweep = .error .empty_subscript) := by
  refine ⟨?_, ⟨_, isSolved_eq b hb⟩, sweep_of_empty_cell b hb⟩
  intro hgood
  obtain ⟨cs, hrun, hlen, _⟩ := sweep_total
    (fun _ cells => cells.length = 81 ∧ ∀ c ∈ cells, c ≠ [] ∧ c.Nodup)
    (fun _ _ h => h.1)
    (fun _ _ _ h => getElem?_ne_nil_of_good h.2)
    (fun y x cells _ _ h => ⟨by rw [visit_length]; exact h.1, visit_good h.2 y x⟩)
    b hb.1 ⟨hb.2, hgood⟩
  exact ⟨_, hrun, hb.withCells hlen, _, isSolved_eq _ (hb.withCells hlen)⟩

/-- Witness of C18 as amended: the puzzle `twoSweepGivens`, whose cells are non-empty
and free of repetitions, and the grid the constructor builds for size 9, whose cells
are empty. -/
theorem sweep_index_safe_witness :
    Is9x9 (boardOfGivens twoSweepGivens) ∧
    (∀ c ∈ (boardOfGivens twoSweepGivens).cells, c ≠ [] ∧ c.Nodup) ∧
    (∃ b', (boardOfGivens twoSweepGivens).sweep = .ok b' ∧ Is9x9 b' ∧
      ∃ s, b'.isSolved = .ok s) ∧
    Is9x9 (SudokuBoard.new 9) ∧ [] ∈ (SudokuBoard.new 9).cells ∧
    (SudokuBoard.new 9).sweep = .error .empty_subscript :=
  ⟨by decide, by decide,
    (sweep_index_safe (boardOfGivens twoSweepGivens) (by decide)).1 (by decide),
    by decide, by decide,
    (sweep_index_safe (SudokuBoard.new 9) (by decide)).2.2 (by decide)⟩

/-- Counterexample to C18 as stated: in `repeatBoard` every one of the 81 cells is
non-empty, yet the sweep fails: the visit of cell (0,0), resolved to 3, erases both
members of cell (0,1), and the visit of cell (0,1) reads element `[0]` of the empty
list. -/
theorem sweep_fails_on_repeated_digit :
    Is9x9 repeatBoard ∧ (∀ c ∈ repeatBoard.cells, c ≠ []) ∧
    cellAt repeatBoard.cells (0 * 9 + 1) = [3, 3] ∧
    repeatBoard.sweep = .error .empty_subscript := by
  refine ⟨by decide, by decide, by decide, by decide⟩

/-- C19, the code at a board of side 4: `square_size` is 2, yet `crossBox(0, 0, 1)`
removes 1 from the blank cells of the 3x3 block at the origin, among them cells
(0,2), (1,2), (2,0), (2,1) and (2,2) outside the 2x2 sub-box of (0,0), and
`crossBox(3, 3, 1)` leaves the grid: it fails with an out-of-range access. -/
theorem crossBox_on_side_four :
    SudokuBoard.new 4 = { cells := List.replicate 16 [], board_size := 4, square_size := 2 } ∧
    read fourText { cells := List.replicate 16 [], board_size := 4, square_size := 2 }
      = .ok fourBoard ∧
    fourBoard.crossBox 0 0 1 = .ok
      { cells := [[1], withoutOne, withoutOne, empty_square,
                  withoutOne, withoutOne, withoutOne, empty_square,
                  withoutOne, withoutOne, withoutOne, empty_square,
                  empty_square, empty_square, empty_square, empty_square],
        board_size := 4, square_size := 2 } ∧
    fourBoard.crossBox 3 3 1 = .error .out_of_range := by
  refine ⟨new_four, by decide, by decide, by decide⟩

end Sudoku
